import Mathlib

/-
Verification development for the story-timeline module of VNova Assistant
(src/story_manager/story_timeline.py).  The Python classes StoryEvent and
StoryTimeline are shallowly embedded: Python dicts become insertion-ordered
association lists (Python 3.7+ dicts iterate in insertion order, which the
undo operation depends on), datetime.now() becomes an externally supplied
natural-number timestamp, and hash(json.dumps(data)) becomes an arbitrary
function from payloads to integers carried as a parameter.
-/

namespace VNova

/-! ## Association lists modelling Python dicts

A Python dict is modelled as a list of key/value pairs in insertion order.
All operations act on the first occurrence of a key, which coincides with
dict behaviour since dict keys are unique.  dinsert mirrors d[k] = v
(update in place keeping the key position, else append at the end),
dremove mirrors d.pop(k, None), dmodify mirrors in-place mutation of the
stored object's fields. -/

def dlookup {α β : Type} [DecidableEq α] : List (α × β) → α → Option β
  | [], _ => none
  | (k, v) :: rest, key => if k = key then some v else dlookup rest key

def dmodify {α β : Type} [DecidableEq α] : List (α × β) → α → (β → β) → List (α × β)
  | [], _, _ => []
  | (k, v) :: rest, key, f =>
    if k = key then (k, f v) :: rest else (k, v) :: dmodify rest key f

def dinsert {α β : Type} [DecidableEq α] (m : List (α × β)) (key : α) (v : β) :
    List (α × β) :=
  if (dlookup m key).isSome then dmodify m key (fun _ => v) else m ++ [(key, v)]

def dremove {α β : Type} [DecidableEq α] : List (α × β) → α → List (α × β)
  | [], _ => []
  | (k, v) :: rest, key => if k = key then rest else (k, v) :: dremove rest key

/-- list.remove(x) with the ValueError swallowed: drop the first occurrence. -/
def rmFirst {α : Type} [DecidableEq α] : List α → α → List α
  | [], _ => []
  | x :: rest, y => if x = y then rest else x :: rmFirst rest y

theorem dlookup_nil {α β : Type} [DecidableEq α] (k : α) :
    dlookup ([] : List (α × β)) k = none := rfl

theorem dlookup_cons {α β : Type} [DecidableEq α] (k key : α) (v : β) (rest : List (α × β)) :
    dlookup ((k, v) :: rest) key = if k = key then some v else dlookup rest key := rfl

theorem dlookup_append_left {α β : Type} [DecidableEq α] {m₁ : List (α × β)} {k : α}
    {v : β} (m₂ : List (α × β)) (h : dlookup m₁ k = some v) :
    dlookup (m₁ ++ m₂) k = some v := by
  induction m₁ with
  | nil => simp [dlookup] at h
  | cons p rest ih =>
    obtain ⟨a, b⟩ := p
    by_cases ha : a = k
    · simp_all [dlookup]
    · simp only [dlookup, ha, if_false] at h
      simpa [dlookup, ha] using ih h

theorem dlookup_append_right {α β : Type} [DecidableEq α] {m₁ : List (α × β)} {k : α}
    (m₂ : List (α × β)) (h : dlookup m₁ k = none) :
    dlookup (m₁ ++ m₂) k = dlookup m₂ k := by
  induction m₁ with
  | nil => simp
  | cons p rest ih =>
    obtain ⟨a, b⟩ := p
    by_cases ha : a = k
    · simp [dlookup, ha] at h
    · simp only [dlookup, ha, if_false] at h
      simpa [dlookup, ha] using ih h

theorem dlookup_dmodify_self {α β : Type} [DecidableEq α]
    (m : List (α × β)) (k : α) (f : β → β) :
    dlookup (dmodify m k f) k = (dlookup m k).map f := by
  induction m with
  | nil => simp [dlookup, dmodify]
  | cons p rest ih =>
    obtain ⟨a, b⟩ := p
    by_cases h : a = k <;> simp [dlookup, dmodify, h, ih]

theorem dlookup_dmodify_ne {α β : Type} [DecidableEq α]
    (m : List (α × β)) (k k' : α) (f : β → β) (h : k ≠ k') :
    dlookup (dmodify m k f) k' = dlookup m k' := by
  induction m with
  | nil => simp [dmodify]
  | cons p rest ih =>
    obtain ⟨a, b⟩ := p
    by_cases ha : a = k
    · subst ha
      simp [dmodify, dlookup, h, ih]
    · by_cases ha' : a = k' <;>
        simp [dmodify, dlookup, ha, ha', ih, Ne.symm h]

theorem dlookup_dinsert_self {α β : Type} [DecidableEq α]
    (m : List (α × β)) (k : α) (v : β) :
    dlookup (dinsert m k v) k = some v := by
  unfold dinsert
  by_cases h : (dlookup m k).isSome
  · simp only [h, if_true, dlookup_dmodify_self]
    obtain ⟨w, hw⟩ := Option.isSome_iff_exists.mp h
    simp [hw]
  · rw [Option.not_isSome_iff_eq_none] at h
    simp only [h, Option.isSome_none, Bool.false_eq_true, if_false]
    rw [dlookup_append_right _ h]
    simp [dlookup]

theorem dlookup_dinsert_ne {α β : Type} [DecidableEq α]
    (m : List (α × β)) (k k' : α) (v : β) (h : k ≠ k') :
    dlookup (dinsert m k v) k' = dlookup m k' := by
  unfold dinsert
  by_cases hs : (dlookup m k).isSome
  · simp [hs, dlookup_dmodify_ne _ _ _ _ h]
  · rw [Option.not_isSome_iff_eq_none] at hs
    simp only [hs, Option.isSome_none, Bool.false_eq_true, if_false]
    cases hl : dlookup m k' with
    | some w => rw [dlookup_append_left _ hl]
    | none => rw [dlookup_append_right _ hl]; simp [dlookup, h]

theorem dmodify_keys {α β : Type} [DecidableEq α]
    (m : List (α × β)) (k : α) (f : β → β) :
    (dmodify m k f).map Prod.fst = m.map Prod.fst := by
  induction m with
  | nil => rfl
  | cons p rest ih =>
    obtain ⟨a, b⟩ := p
    by_cases h : a = k <;> simp [dmodify, h, ih]

theorem dremove_keys {α β : Type} [DecidableEq α]
    (m : List (α × β)) (k : α) :
    (dremove m k).map Prod.fst = rmFirst (m.map Prod.fst) k := by
  induction m with
  | nil => rfl
  | cons p rest ih =>
    obtain ⟨a, b⟩ := p
    by_cases h : a = k <;> simp [dremove, rmFirst, h, ih]

theorem mem_rmFirst {α : Type} [DecidableEq α] (l : List α) (x y : α)
    (hnd : l.Nodup) : x ∈ rmFirst l y ↔ x ∈ l ∧ x ≠ y := by
  induction l with
  | nil => simp [rmFirst]
  | cons a rest ih =>
    rw [List.nodup_cons] at hnd
    by_cases h : a = y
    · subst h
      simp only [rmFirst, if_true, List.mem_cons]
      constructor
      · intro hx
        exact ⟨Or.inr hx, fun he => hnd.1 (he ▸ hx)⟩
      · rintro ⟨hx | hx, hne⟩
        · exact absurd hx hne
        · exact hx
    · simp only [rmFirst, h, if_false, List.mem_cons]
      constructor
      · rintro (rfl | hx)
        · exact ⟨Or.inl rfl, fun he => h he⟩
        · have := (ih hnd.2).mp hx
          exact ⟨Or.inr this.1, this.2⟩
      · rintro ⟨rfl | hx, hne⟩
        · exact Or.inl rfl
        · exact Or.inr ((ih hnd.2).mpr ⟨hx, hne⟩)

theorem rmFirst_nodup {α : Type} [DecidableEq α] (l : List α) (y : α)
    (hnd : l.Nodup) : (rmFirst l y).Nodup := by
  induction l with
  | nil => exact List.nodup_nil
  | cons a rest ih =>
    rw [List.nodup_cons] at hnd
    by_cases h : a = y
    · simpa [rmFirst, h] using hnd.2
    · rw [rmFirst, if_neg h, List.nodup_cons]
      refine ⟨fun hmem => ?_, ih hnd.2⟩
      exact hnd.1 ((mem_rmFirst rest a y hnd.2).mp hmem).1

/-! ## Data model

StoryEvent.__init__ computes the id as the string
f"{timestamp}-{event_type}-{hash(json.dumps(data))}".  The three components
determine the id, so EventId is modelled as the triple; hash composed with
json.dumps is deterministic within one process but otherwise arbitrary, so
it is carried as a parameter hash from payloads to integers. -/

structure EventId where
  ts : Nat
  etype : String
  dhash : Int
deriving DecidableEq

/-- Event payloads (the data dict).  choiceData t c models the dict
built by create_branch_point from a branch choice: text t plus the
choice's content c (an empty dict when absent). -/
inductive EData where
  | text (t : String)
  | gen (prompt response : String)
  | choiceData (t : String) (content : EData)
  | emptyDict
  | other (n : Nat)
deriving DecidableEq

/-- One entry of branch_choices: a dict with keys text and target_id. -/
structure BranchChoice where
  text : String
  target_id : EventId
deriving DecidableEq

structure StoryEvent where
  event_id : EventId
  timestamp : Nat
  event_type : String
  data : EData
  parent_event_id : Option EventId
  child_event_ids : List EventId
  ollama_request_id : Option String
  emotion : Option Int
  is_branch_point : Bool
  branch_choices : List BranchChoice
deriving DecidableEq

def genId (hash : EData → Int) (ts : Nat) (etype : String) (d : EData) : EventId :=
  ⟨ts, etype, hash d⟩

/-- StoryEvent.__init__: fresh event with the generated id, empty children,
no emotion, not a branch point. -/
def StoryEvent.init (hash : EData → Int) (ts : Nat) (etype : String) (d : EData)
    (parent_event_id : Option EventId) (ollama_request_id : Option String) :
    StoryEvent :=
  { event_id := genId hash ts etype d
    timestamp := ts
    event_type := etype
    data := d
    parent_event_id := parent_event_id
    child_event_ids := []
    ollama_request_id := ollama_request_id
    emotion := none
    is_branch_point := false
    branch_choices := [] }

/-- Asset metadata: either a dict of string fields or a non-dict value,
which add_asset wraps as a dict with a path key (str(asset_data)). -/
inductive AData where
  | dict (entries : List (String × String))
  | prim (s : String)
deriving DecidableEq

structure StoryTimeline where
  events : List (EventId × StoryEvent)
  head_event_id : Option EventId
  characters : List (String × String)
  active_branch_id : Option EventId
  assets : List (String × List (String × AData))
  dirty : Bool
deriving DecidableEq

/-- StoryTimeline.__init__: empty timeline with the four fixed asset
buckets (backgrounds, characters, sounds, music). -/
def StoryTimeline.init : StoryTimeline :=
  { events := []
    head_event_id := none
    characters := []
    active_branch_id := none
    assets :=
      [("backgrounds", []), ("characters", []), ("sounds", []), ("music", [])]
    dirty := false }

/-! ## Graph mutation -/

/-- StoryTimeline.add_event.  The timestamp (datetime.now()) is an external
input.  Note the order in the original: the new event is inserted into
events first, and only then is the parent looked up in events, so a caller
supplying the about-to-be-generated id as parent would find it. -/
def add_event (hash : EData → Int) (tl : StoryTimeline) (ts : Nat) (etype : String)
    (d : EData) (parent? : Option EventId) (ollama_request_id : Option String) :
    StoryTimeline × EventId :=
  let parent := match parent? with
    | none => tl.head_event_id
    | some p => some p
  let newEvent := StoryEvent.init hash ts etype d parent ollama_request_id
  let nid := newEvent.event_id
  let events1 := dinsert tl.events nid newEvent
  let events2 := match parent with
    | some p =>
      if (dlookup events1 p).isSome then
        dmodify events1 p
          (fun pe => { pe with child_event_ids := pe.child_event_ids ++ [nid] })
      else events1
    | none => events1
  ({ tl with events := events2, head_event_id := some nid, dirty := true }, nid)

/-- StoryTimeline.select_branch: sets active_branch_id and head_event_id
when the branch exists; note the original does not mark the timeline dirty. -/
def select_branch (tl : StoryTimeline) (branch_id : EventId) :
    StoryTimeline × Bool :=
  if (dlookup tl.events branch_id).isSome then
    ({ tl with active_branch_id := some branch_id,
               head_event_id := some branch_id }, true)
  else (tl, false)

/-- A branch choice as supplied to create_branch_point: dict with text and
optional data (content defaults to the empty dict). -/
structure ChoiceInput where
  text : String
  content : EData
deriving DecidableEq

/-- The inner re-attachment loop of create_branch_point: each previously
existing child that still exists gets its parent set to the first branch
event, which gains it as a child. -/
def reparentChildren (bid : EventId) :
    List (EventId × StoryEvent) → List EventId → List (EventId × StoryEvent)
  | evs, [] => evs
  | evs, cid :: rest =>
    let evs' :=
      if (dlookup evs cid).isSome then
        dmodify
          (dmodify evs cid (fun ce => { ce with parent_event_id := some bid }))
          bid (fun be => { be with child_event_ids := be.child_event_ids ++ [cid] })
      else evs
    reparentChildren bid evs' rest

/-- The per-choice loop of create_branch_point.  Each choice becomes a
branch_option event via add_event (parented at the branch point); on the
first iteration the saved children are re-attached to that first branch
event; the choice text and new id are appended to the branch point's
branch_choices. -/
def cbpLoop (hash : EData → Int) (eid : EventId) (existing : List EventId) :
    StoryTimeline → List (ChoiceInput × Nat) → List EventId →
    StoryTimeline × List EventId
  | tl, [], acc => (tl, acc)
  | tl, (c, ts) :: rest, acc =>
    let r := add_event hash tl ts "branch_option" (EData.choiceData c.text c.content)
      (some eid) none
    let tl1 := r.1
    let bid := r.2
    let tl2 :=
      if existing ≠ [] ∧ acc = [] then
        { tl1 with events := reparentChildren bid tl1.events existing }
      else tl1
    let tl3 := { tl2 with
      events := dmodify tl2.events eid
        (fun e => { e with branch_choices := e.branch_choices ++ [⟨c.text, bid⟩] }) }
    cbpLoop hash eid existing tl3 rest (acc ++ [bid])

/-- StoryTimeline.create_branch_point.  The internal add_event calls draw
timestamps from the clock; tss supplies one timestamp per choice (the loop
runs over the zip).  The original holds a direct reference to the branch
point object while mutating the store; reads here go through the store
each time, which coincides with the original whenever the generated branch
ids do not collide with event_id (the regime all theorems below are in). -/
def create_branch_point (hash : EData → Int) (tl : StoryTimeline) (event_id : EventId)
    (branch_choices : List ChoiceInput) (tss : List Nat) :
    StoryTimeline × Bool × List EventId :=
  match dlookup tl.events event_id with
  | none => (tl, false, [])
  | some e =>
    let existing := e.child_event_ids
    let tl1 := { tl with
      events := dmodify tl.events event_id
        (fun ev => { ev with is_branch_point := true, child_event_ids := [],
                             branch_choices := [] }) }
    let r := cbpLoop hash event_id existing tl1 (branch_choices.zip tss) []
    ({ r.1 with dirty := true }, true, r.2)

/-- StoryTimeline.undo_ollama_generation, one loop iteration: pop the
event, drop it from its parent's children when the parent still exists
(list.remove with ValueError swallowed), and retreat the head one step
when the removed event was the head. -/
def undoStep (tl : StoryTimeline) (event_id : EventId) : StoryTimeline :=
  let ev? := dlookup tl.events event_id
  let events1 := dremove tl.events event_id
  let events2 := match ev? with
    | some ev =>
      match ev.parent_event_id with
      | some p =>
        if (dlookup events1 p).isSome then
          dmodify events1 p
            (fun pe => { pe with child_event_ids := rmFirst pe.child_event_ids event_id })
        else events1
      | none => events1
    | none => events1
  let newHead := if tl.head_event_id = some event_id then ev?.bind (·.parent_event_id)
    else tl.head_event_id
  { tl with events := events2, head_event_id := newHead }

/-- StoryTimeline.undo_ollama_generation: removes every event whose
ollama_request_id equals the argument, in insertion order; returns false
when nothing matched. -/
def undo_ollama_generation (tl : StoryTimeline) (ollama_request_id : Option String) :
    StoryTimeline × Bool :=
  let events_to_remove :=
    (tl.events.filter (fun p => p.2.ollama_request_id = ollama_request_id)).map Prod.fst
  if events_to_remove = [] then (tl, false)
  else
    let tl' := events_to_remove.foldl undoStep tl
    ({ tl' with dirty := true }, true)

/-! ## Persistence codec -/

/-- StoryEvent.to_dict output.  The original serializes the timestamp with
isoformat and from_dict parses it back with fromisoformat, an exact
round trip, modelled as the identity on the Nat timestamp.  to_dict always
emits all ten keys, so the document fields are total. -/
structure EventDoc where
  event_id : EventId
  timestamp : Nat
  event_type : String
  data : EData
  parent_event_id : Option EventId
  child_event_ids : List EventId
  ollama_request_id : Option String
  emotion : Option Int
  is_branch_point : Bool
  branch_choices : List BranchChoice
deriving DecidableEq

def StoryEvent.to_dict (e : StoryEvent) : EventDoc :=
  { event_id := e.event_id
    timestamp := e.timestamp
    event_type := e.event_type
    data := e.data
    parent_event_id := e.parent_event_id
    child_event_ids := e.child_event_ids
    ollama_request_id := e.ollama_request_id
    emotion := e.emotion
    is_branch_point := e.is_branch_point
    branch_choices := e.branch_choices }

/-- StoryEvent.from_dict: builds the event through __init__ (whose
generated id is immediately overwritten by the stored one) and then
restores children, emotion, branch flag and choices from the document. -/
def StoryEvent.from_dict (hash : EData → Int) (d : EventDoc) : StoryEvent :=
  { StoryEvent.init hash d.timestamp d.event_type d.data d.parent_event_id
      d.ollama_request_id with
    event_id := d.event_id
    child_event_ids := d.child_event_ids
    emotion := d.emotion
    is_branch_point := d.is_branch_point
    branch_choices := d.branch_choices }

/-- The persisted document. head_event_id and active_branch_id are read
with .get (missing and null both load as none); events, characters and
assets are read with .get defaulting to the empty dict, so a document may
lack them entirely. -/
structure TimelineDoc where
  events : Option (List (EventId × EventDoc))
  head_event_id : Option EventId
  active_branch_id : Option EventId
  characters : Option (List (String × String))
  assets : Option (List (String × List (String × AData)))
deriving DecidableEq

/-- StoryTimeline.save_timeline (the successful write): the document holds
every event through to_dict plus head, active branch, characters and
assets.  On success the original also clears dirty; the claims below only
concern the document. -/
def save_timeline (tl : StoryTimeline) : TimelineDoc :=
  { events := some (tl.events.map (fun p => (p.1, p.2.to_dict)))
    head_event_id := tl.head_event_id
    active_branch_id := tl.active_branch_id
    characters := some tl.characters
    assets := some tl.assets }

/-- What load_timeline finds at the path: a missing file
(FileNotFoundError), content json.load rejects (JSONDecodeError), or a
parsed document. -/
inductive LoadSource where
  | missing
  | parseError
  | ok (doc : TimelineDoc)

/-- StoryTimeline.load_timeline: on a parsed document every field is
rebuilt from stored state (child lists are trusted, not recomputed) and
dirty is cleared; on a missing or unparseable file the timeline is reset
through __init__.  The trailing hasattr guard in the original can never
fire and is omitted. -/
def load_timeline (hash : EData → Int) (_tl : StoryTimeline) (src : LoadSource) :
    StoryTimeline :=
  match src with
  | .missing => StoryTimeline.init
  | .parseError => StoryTimeline.init
  | .ok doc =>
    { events := (doc.events.getD []).map (fun p => (p.1, StoryEvent.from_dict hash p.2))
      head_event_id := doc.head_event_id
      active_branch_id := doc.active_branch_id
      characters := doc.characters.getD []
      assets := doc.assets.getD []
      dirty := false }

/-! ## Asset registry -/

/-- StoryTimeline.add_asset: fails when the category key is absent from
the assets dict; otherwise wraps non-dict metadata and inserts. -/
def add_asset (tl : StoryTimeline) (category asset_id : String) (asset_data : AData) :
    StoryTimeline × Bool :=
  if (dlookup tl.assets category).isSome then
    let asset_data' := match asset_data with
      | .dict es => AData.dict es
      | .prim s => AData.dict [("path", s)]
    ({ tl with
        assets := dmodify tl.assets category (fun bucket => dinsert bucket asset_id asset_data'),
        dirty := true }, true)
  else (tl, false)

/-- StoryTimeline.remove_asset: fails when the category or the asset id is
absent. -/
def remove_asset (tl : StoryTimeline) (category asset_id : String) :
    StoryTimeline × Bool :=
  match dlookup tl.assets category with
  | none => (tl, false)
  | some bucket =>
    if (dlookup bucket asset_id).isSome then
      ({ tl with assets := dmodify tl.assets category (fun b => dremove b asset_id),
                 dirty := true }, true)
    else (tl, false)

/-! ## Further dictionary lemmas -/

theorem dlookup_isSome_iff_mem_keys {α β : Type} [DecidableEq α]
    (m : List (α × β)) (k : α) :
    (dlookup m k).isSome ↔ k ∈ m.map Prod.fst := by
  induction m with
  | nil => simp [dlookup]
  | cons p rest ih =>
    obtain ⟨a, b⟩ := p
    by_cases h : a = k
    · simp [dlookup, h]
    · simp only [dlookup, h, if_false, List.map_cons, List.mem_cons]
      rw [ih]
      constructor
      · exact Or.inr
      · rintro (rfl | hk)
        · exact absurd rfl h
        · exact hk

theorem dlookup_eq_none_iff_not_mem_keys {α β : Type} [DecidableEq α]
    (m : List (α × β)) (k : α) :
    dlookup m k = none ↔ k ∉ m.map Prod.fst := by
  rw [← dlookup_isSome_iff_mem_keys, Option.not_isSome_iff_eq_none]

theorem mem_of_dlookup_eq_some {α β : Type} [DecidableEq α]
    {m : List (α × β)} {k : α} {v : β} (h : dlookup m k = some v) : (k, v) ∈ m := by
  induction m with
  | nil => simp [dlookup] at h
  | cons p rest ih =>
    obtain ⟨a, b⟩ := p
    by_cases ha : a = k
    · subst ha
      simp only [dlookup, if_true] at h
      injection h with h
      subst h
      exact List.mem_cons_self _ _
    · simp only [dlookup, ha, if_false] at h
      exact List.mem_cons_of_mem _ (ih h)

theorem dlookup_eq_some_of_mem {α β : Type} [DecidableEq α]
    {m : List (α × β)} {k : α} {v : β} (hnd : (m.map Prod.fst).Nodup)
    (h : (k, v) ∈ m) : dlookup m k = some v := by
  induction m with
  | nil => simp at h
  | cons p rest ih =>
    obtain ⟨a, b⟩ := p
    simp only [List.map_cons, List.nodup_cons] at hnd
    rcases List.mem_cons.mp h with heq | hmem
    · injection heq with h1 h2
      subst h1; subst h2
      simp [dlookup]
    · have hak : a ≠ k := by
        intro hak
        subst hak
        exact hnd.1 (List.mem_map.mpr ⟨(a, v), hmem, rfl⟩)
      simp only [dlookup, hak, if_false]
      exact ih hnd.2 hmem

theorem dinsert_of_not_mem {α β : Type} [DecidableEq α]
    {m : List (α × β)} {k : α} (v : β) (h : dlookup m k = none) :
    dinsert m k v = m ++ [(k, v)] := by
  unfold dinsert
  simp [h]

theorem dlookup_dinsert_isSome {α β : Type} [DecidableEq α]
    (m : List (α × β)) (k k' : α) (v : β) (h : (dlookup m k').isSome) :
    (dlookup (dinsert m k v) k').isSome := by
  by_cases hk : k = k'
  · subst hk
    simp [dlookup_dinsert_self]
  · rwa [dlookup_dinsert_ne _ _ _ _ hk]

theorem dlookup_dmodify_isSome {α β : Type} [DecidableEq α]
    (m : List (α × β)) (k k' : α) (f : β → β) :
    (dlookup (dmodify m k f) k').isSome = (dlookup m k').isSome := by
  by_cases hk : k = k'
  · subst hk
    simp [dlookup_dmodify_self]
  · rw [dlookup_dmodify_ne _ _ _ _ hk]

/-! ## Concrete fixtures

A three-event chain built through add_event with the hash function
constantly 0: E1 is plain, E2 and E3 carry ollama_request_id g1, each the
child of the previous one (default parent = head), head ends at E3. -/

def hash0 : EData → Int := fun _ => 0

def chain1 : StoryTimeline × EventId :=
  add_event hash0 StoryTimeline.init 1 "text_node" (.text "E1") none none

def chain2 : StoryTimeline × EventId :=
  add_event hash0 chain1.1 2 "ollama_generation" (.gen "p" "E2") none (some "g1")

def chain3 : StoryTimeline × EventId :=
  add_event hash0 chain2.1 3 "ollama_generation" (.gen "p" "E3") none (some "g1")

def chainUndo : StoryTimeline × Bool :=
  undo_ollama_generation chain3.1 (some "g1")

/-! ## Claim theorems -/

/-- C1: the claim says that whenever head_id is among the events removed by
undo_generation(r), the head afterwards refers to a surviving event reached
by walking parent_id links, in particular when several removed events form
a parent chain ending at the head.  The code violates this: removal
proceeds in insertion order (parents before children), the head retreats a
single step per removed event, and when the chain E1 <- E2 <- E3 with E2, E3
tagged g1 and head = E3 is undone, the head is set to E2's id, which was
itself removed; the surviving ancestor E1 is never reached.  This theorem
evaluates the code at that failing input. -/
theorem C1_head_retreat_code_bug :
    chainUndo.2 = true ∧
    chainUndo.1.head_event_id = some chain2.2 ∧
    dlookup chainUndo.1.events chain2.2 = none ∧
    (dlookup chainUndo.1.events chain1.2).isSome = true := by
  decide

/-- C3: the claim says the ids returned by a sequence of add_event calls are
pairwise distinct even when two calls occur at the same timestamp with the
same kind and payload.  The code computes the id purely from the
timestamp, the event kind and the payload hash, so two such calls return
the identical id and the second insert overwrites the first: after the two
calls the events dict holds a single entry.  This holds for every hash
function, i.e. regardless of how hash(json.dumps(data)) behaves. -/
theorem C3_id_uniqueness_code_bug :
    (∀ (hash : EData → Int) (tl : StoryTimeline) (ts : Nat) (etype : String)
      (d : EData) (p? : Option EventId) (oref : Option String),
      (add_event hash tl ts etype d p? oref).2 = genId hash ts etype d) ∧
    ((add_event hash0 (add_event hash0 StoryTimeline.init 5 "text_node"
        (.text "A") none none).1 5 "text_node" (.text "A") none none).2 =
      (add_event hash0 StoryTimeline.init 5 "text_node" (.text "A") none none).2 ∧
     ((add_event hash0 (add_event hash0 StoryTimeline.init 5 "text_node"
        (.text "A") none none).1 5 "text_node" (.text "A") none none).1.events.map
        Prod.fst) =
      [(add_event hash0 StoryTimeline.init 5 "text_node" (.text "A") none none).2]) := by
  refine ⟨fun hash tl ts etype d p? oref => rfl, ?_, ?_⟩ <;> decide

/-- C6: load of the document produced by save reproduces every event with
all its fields, the head, the active branch, the characters and the assets
of the saved timeline, for every timeline including the empty one. -/
theorem C6_save_load_round_trip (hash : EData → Int) (tl0 tl : StoryTimeline) :
    (load_timeline hash tl0 (.ok (save_timeline tl))).events = tl.events ∧
    (load_timeline hash tl0 (.ok (save_timeline tl))).head_event_id = tl.head_event_id ∧
    (load_timeline hash tl0 (.ok (save_timeline tl))).active_branch_id = tl.active_branch_id ∧
    (load_timeline hash tl0 (.ok (save_timeline tl))).characters = tl.characters ∧
    (load_timeline hash tl0 (.ok (save_timeline tl))).assets = tl.assets := by
  refine ⟨?_, rfl, rfl, rfl, rfl⟩
  show (tl.events.map (fun p => (p.1, p.2.to_dict))).map
      (fun p => (p.1, StoryEvent.from_dict hash p.2)) = tl.events
  rw [List.map_map]
  have hfun : ((fun p : EventId × EventDoc => (p.1, StoryEvent.from_dict hash p.2)) ∘
      (fun p : EventId × StoryEvent => (p.1, p.2.to_dict))) = id := by
    funext p
    rfl
  rw [hfun, List.map_id]

/-- C7: on a missing file or unparseable content, load does not propagate
the failure; the timeline is reset to the fresh empty state: no events, no
head, no active branch, no characters, the four empty asset buckets, and
dirty cleared. -/
theorem C7_load_never_fails (hash : EData → Int) (tl : StoryTimeline)
    (src : LoadSource) (h : src = .missing ∨ src = .parseError) :
    load_timeline hash tl src = StoryTimeline.init ∧
    (load_timeline hash tl src).events = [] ∧
    (load_timeline hash tl src).head_event_id = none ∧
    (load_timeline hash tl src).active_branch_id = none ∧
    (load_timeline hash tl src).characters = [] ∧
    (load_timeline hash tl src).assets =
      [("backgrounds", []), ("characters", []), ("sounds", []), ("music", [])] ∧
    (load_timeline hash tl src).dirty = false := by
  rcases h with h | h <;> subst h <;> exact ⟨rfl, rfl, rfl, rfl, rfl, rfl, rfl⟩

theorem C7_load_never_fails_witness :
    load_timeline hash0 StoryTimeline.init .missing = StoryTimeline.init ∧
    (load_timeline hash0 StoryTimeline.init .missing).events = [] ∧
    (load_timeline hash0 StoryTimeline.init .missing).head_event_id = none ∧
    (load_timeline hash0 StoryTimeline.init .missing).active_branch_id = none ∧
    (load_timeline hash0 StoryTimeline.init .missing).characters = [] ∧
    (load_timeline hash0 StoryTimeline.init .missing).assets =
      [("backgrounds", []), ("characters", []), ("sounds", []), ("music", [])] ∧
    (load_timeline hash0 StoryTimeline.init .missing).dirty = false :=
  C7_load_never_fails hash0 StoryTimeline.init .missing (Or.inl rfl)

/-- C9: after every add_event call the head is the id the call returned,
whatever parent was supplied (the previous head, another event, a
non-existent id, or none). -/
theorem C9_head_advancement (hash : EData → Int) (tl : StoryTimeline) (ts : Nat)
    (etype : String) (d : EData) (p? : Option EventId) (oref : Option String) :
    (add_event hash tl ts etype d p? oref).1.head_event_id =
      some (add_event hash tl ts etype d p? oref).2 := rfl

/-- C10: when a loaded document has no assets key, the resulting assets
mapping is empty (no category buckets at all), so every subsequent
add_asset call fails for every category, the four normally valid ones
included, and leaves the timeline unchanged. -/
theorem C10_load_without_assets (hash : EData → Int) (tl : StoryTimeline)
    (doc : TimelineDoc) (h : doc.assets = none) :
    (load_timeline hash tl (.ok doc)).assets = [] ∧
    ∀ (category asset_id : String) (asset_data : AData),
      add_asset (load_timeline hash tl (.ok doc)) category asset_id asset_data =
        (load_timeline hash tl (.ok doc), false) := by
  have hA : (load_timeline hash tl (.ok doc)).assets = [] := by
    simp [load_timeline, h]
  refine ⟨hA, fun category asset_id asset_data => ?_⟩
  simp [add_asset, hA, dlookup]

theorem C10_load_without_assets_witness :
    (load_timeline hash0 StoryTimeline.init
        (.ok ⟨some [], none, none, some [], none⟩)).assets = [] ∧
    ∀ (category asset_id : String) (asset_data : AData),
      add_asset (load_timeline hash0 StoryTimeline.init
          (.ok ⟨some [], none, none, some [], none⟩)) category asset_id asset_data =
        (load_timeline hash0 StoryTimeline.init
          (.ok ⟨some [], none, none, some [], none⟩), false) :=
  C10_load_without_assets hash0 StoryTimeline.init ⟨some [], none, none, some [], none⟩ rfl

/-- C8: supplying an explicit parent_id that is not a key of events does
not fail: the new event is still created with that parent_id recorded, it
is stored under the returned id, and every other entry of events — in
particular the child list of every pre-existing event — is unchanged: the
dangling link is recorded without any parent registration. -/
theorem C8_unknown_parent_tolerated (hash : EData → Int) (tl : StoryTimeline)
    (ts : Nat) (etype : String) (d : EData) (X : EventId) (oref : Option String)
    (hX : dlookup tl.events X = none) :
    (add_event hash tl ts etype d (some X) oref).2 = genId hash ts etype d ∧
    (∃ e', dlookup (add_event hash tl ts etype d (some X) oref).1.events
        (add_event hash tl ts etype d (some X) oref).2 = some e' ∧
      e'.parent_event_id = some X ∧ e'.event_type = etype ∧ e'.data = d) ∧
    (∀ id, id ≠ (add_event hash tl ts etype d (some X) oref).2 →
      dlookup (add_event hash tl ts etype d (some X) oref).1.events id =
        dlookup tl.events id) := by
  set nid := genId hash ts etype d with hnid
  have hret : (add_event hash tl ts etype d (some X) oref).2 = nid := rfl
  set newEvent := StoryEvent.init hash ts etype d (some X) oref with hnew
  have hEvents : (add_event hash tl ts etype d (some X) oref).1.events =
      (if (dlookup (dinsert tl.events nid newEvent) X).isSome then
        dmodify (dinsert tl.events nid newEvent) X
          (fun pe => { pe with child_event_ids := pe.child_event_ids ++ [nid] })
      else dinsert tl.events nid newEvent) := rfl
  by_cases hXn : X = nid
  · subst hXn
    have h1 : dlookup (dinsert tl.events nid newEvent) nid = some newEvent :=
      dlookup_dinsert_self _ _ _
    rw [hEvents]
    simp only [h1, Option.isSome_some, if_true]
    refine ⟨hret, ⟨{ newEvent with child_event_ids := newEvent.child_event_ids ++ [nid] },
      ?_, rfl, rfl, rfl⟩, fun id hid => ?_⟩
    · rw [hret, dlookup_dmodify_self, h1]
      rfl
    · rw [hret] at hid
      rw [dlookup_dmodify_ne _ _ _ _ (Ne.symm hid),
        dlookup_dinsert_ne _ _ _ _ (Ne.symm hid)]
  · have h1 : dlookup (dinsert tl.events nid newEvent) X = none := by
      rw [dlookup_dinsert_ne _ _ _ _ (fun h => hXn h.symm)]
      exact hX
    rw [hEvents]
    simp only [h1, Option.isSome_none, Bool.false_eq_true, if_false]
    refine ⟨hret, ⟨newEvent, ?_, rfl, rfl, rfl⟩, fun id hid => ?_⟩
    · rw [hret]
      exact dlookup_dinsert_self _ _ _
    · rw [hret] at hid
      rw [dlookup_dinsert_ne _ _ _ _ (Ne.symm hid)]

theorem C8_unknown_parent_tolerated_witness :
    (add_event hash0 chain1.1 7 "text_node" (.text "W") (some ⟨99, "ghost", 0⟩) none).2 =
      genId hash0 7 "text_node" (.text "W") ∧
    (∃ e', dlookup (add_event hash0 chain1.1 7 "text_node" (.text "W")
        (some ⟨99, "ghost", 0⟩) none).1.events
        (add_event hash0 chain1.1 7 "text_node" (.text "W")
          (some ⟨99, "ghost", 0⟩) none).2 = some e' ∧
      e'.parent_event_id = some ⟨99, "ghost", 0⟩ ∧ e'.event_type = "text_node" ∧
      e'.data = .text "W") ∧
    (∀ id, id ≠ (add_event hash0 chain1.1 7 "text_node" (.text "W")
        (some ⟨99, "ghost", 0⟩) none).2 →
      dlookup (add_event hash0 chain1.1 7 "text_node" (.text "W")
          (some ⟨99, "ghost", 0⟩) none).1.events id =
        dlookup chain1.1.events id) :=
  C8_unknown_parent_tolerated hash0 chain1.1 7 "text_node" (.text "W")
    ⟨99, "ghost", 0⟩ none (by decide)

/-! ## Key-set lemmas for undo -/

theorem undoStep_keys (tl : StoryTimeline) (eid : EventId) :
    (undoStep tl eid).events.map Prod.fst = rmFirst (tl.events.map Prod.fst) eid := by
  unfold undoStep
  cases hev : dlookup tl.events eid with
  | none => simp [dremove_keys]
  | some ev =>
    cases hp : ev.parent_event_id with
    | none => simp [hp, dremove_keys]
    | some p =>
      by_cases hq : (dlookup (dremove tl.events eid) p).isSome <;>
        simp [hp, hq, dmodify_keys, dremove_keys]

theorem foldl_undoStep_keys (L : List EventId) : ∀ tl : StoryTimeline,
    (L.foldl undoStep tl).events.map Prod.fst =
      L.foldl rmFirst (tl.events.map Prod.fst) := by
  induction L with
  | nil => intro tl; rfl
  | cons x rest ih =>
    intro tl
    simp only [List.foldl_cons]
    rw [ih, undoStep_keys]

theorem mem_foldl_rmFirst {α : Type} [DecidableEq α] (L : List α) :
    ∀ l : List α, l.Nodup → ∀ x, x ∈ L.foldl rmFirst l ↔ x ∈ l ∧ x ∉ L := by
  induction L with
  | nil => intro l _ x; simp
  | cons y rest ih =>
    intro l hnd x
    simp only [List.foldl_cons, List.mem_cons]
    rw [ih _ (rmFirst_nodup l y hnd) x, mem_rmFirst l x y hnd]
    tauto

theorem mem_undo_targets (tl : StoryTimeline) (r : Option String)
    (hnd : (tl.events.map Prod.fst).Nodup) (id : EventId) :
    id ∈ (tl.events.filter (fun p => p.2.ollama_request_id = r)).map Prod.fst ↔
      ∃ e, dlookup tl.events id = some e ∧ e.ollama_request_id = r := by
  simp only [List.mem_map, List.mem_filter, decide_eq_true_eq]
  constructor
  · rintro ⟨⟨k, e⟩, ⟨hmem, hpred⟩, rfl⟩
    exact ⟨e, dlookup_eq_some_of_mem hnd hmem, hpred⟩
  · rintro ⟨e, hl, hpred⟩
    exact ⟨(id, e), ⟨mem_of_dlookup_eq_some hl, hpred⟩, rfl⟩

/-- C5: undo_generation removes exactly the events whose generation_ref
equals the argument — every event with a different or absent ref, dangling
descendants of removed events included, keeps its entry — and it returns
ok precisely when at least one event matched.  The Nodup hypothesis states
that the association list is a dict (unique keys), which holds for every
Python timeline. -/
theorem C5_undo_removes_exactly (tl : StoryTimeline) (r : String)
    (hnd : (tl.events.map Prod.fst).Nodup) :
    (∀ id : EventId,
      (dlookup (undo_ollama_generation tl (some r)).1.events id).isSome ↔
        ∃ e, dlookup tl.events id = some e ∧ e.ollama_request_id ≠ some r) ∧
    ((undo_ollama_generation tl (some r)).2 = true ↔
      ∃ id e, dlookup tl.events id = some e ∧ e.ollama_request_id = some r) := by
  by_cases hemp :
      (tl.events.filter (fun p => p.2.ollama_request_id = some r)).map Prod.fst = []
  · have hu : undo_ollama_generation tl (some r) = (tl, false) := by
      unfold undo_ollama_generation
      simp [hemp]
    rw [hu]
    constructor
    · intro id
      constructor
      · intro hs
        obtain ⟨e, he⟩ := Option.isSome_iff_exists.mp hs
        refine ⟨e, he, fun hpred => ?_⟩
        have : id ∈ (tl.events.filter
            (fun p => p.2.ollama_request_id = some r)).map Prod.fst :=
          (mem_undo_targets tl (some r) hnd id).mpr ⟨e, he, hpred⟩
        rw [hemp] at this
        exact absurd this (List.not_mem_nil id)
      · rintro ⟨e, he, _⟩
        simp [he]
    · constructor
      · intro hfalse
        exact absurd hfalse (by simp)
      · rintro ⟨id, e, he, hpred⟩
        have : id ∈ (tl.events.filter
            (fun p => p.2.ollama_request_id = some r)).map Prod.fst :=
          (mem_undo_targets tl (some r) hnd id).mpr ⟨e, he, hpred⟩
        rw [hemp] at this
        exact absurd this (List.not_mem_nil id)
  · have hu : undo_ollama_generation tl (some r) =
        ({ ((tl.events.filter (fun p => p.2.ollama_request_id = some r)).map
            Prod.fst).foldl undoStep tl with dirty := true }, true) := by
      unfold undo_ollama_generation
      simp [hemp]
    rw [hu]
    constructor
    · intro id
      rw [show ({ ((tl.events.filter (fun p => p.2.ollama_request_id = some r)).map
            Prod.fst).foldl undoStep tl with dirty := true } : StoryTimeline).events =
          (((tl.events.filter (fun p => p.2.ollama_request_id = some r)).map
            Prod.fst).foldl undoStep tl).events from rfl]
      rw [dlookup_isSome_iff_mem_keys, foldl_undoStep_keys,
        mem_foldl_rmFirst _ _ hnd, mem_undo_targets tl (some r) hnd id,
        ← dlookup_isSome_iff_mem_keys]
      cases he : dlookup tl.events id with
      | none => simp
      | some e =>
        simp only [Option.isSome_some, true_and]
        constructor
        · intro hnofull
          refine ⟨e, rfl, fun hpred => hnofull ⟨e, rfl, ?_⟩⟩
          exact hpred
        · rintro ⟨e', he', hne⟩ ⟨e'', he'', hpred⟩
          injection he' with h1
          injection he'' with h2
          subst h1
          subst h2
          exact hne hpred
    · simp only [true_iff]
      obtain ⟨id, hid⟩ := List.exists_mem_of_ne_nil _ hemp
      obtain ⟨e, he, hpred⟩ := (mem_undo_targets tl (some r) hnd id).mp hid
      exact ⟨id, e, he, hpred⟩

theorem C5_undo_removes_exactly_witness :
    (∀ id : EventId,
      (dlookup (undo_ollama_generation chain3.1 (some "g1")).1.events id).isSome ↔
        ∃ e, dlookup chain3.1.events id = some e ∧
          e.ollama_request_id ≠ some "g1") ∧
    ((undo_ollama_generation chain3.1 (some "g1")).2 = true ↔
      ∃ id e, dlookup chain3.1.events id = some e ∧
        e.ollama_request_id = some "g1") :=
  C5_undo_removes_exactly chain3.1 "g1" (by decide)

/-! ## Helper lemmas for symbolic execution of create_branch_point -/

theorem ne_of_lookup_isSome_none {α β : Type} [DecidableEq α] {m : List (α × β)}
    {k k' : α} (h1 : (dlookup m k).isSome = true) (h2 : dlookup m k' = none) :
    k ≠ k' := by
  intro he
  subst he
  rw [h2] at h1
  simp at h1

theorem dlookup_append_isSome {α β : Type} [DecidableEq α] {m : List (α × β)}
    {k : α} (m' : List (α × β)) (h : (dlookup m k).isSome = true) :
    (dlookup (m ++ m') k).isSome = true := by
  obtain ⟨w, hw⟩ := Option.isSome_iff_exists.mp h
  rw [dlookup_append_left _ hw]
  rfl

theorem dlookup_dmodify_map {α β γ : Type} [DecidableEq α] (m : List (α × β))
    (k k' : α) (f : β → β) (g : β → γ) (hg : ∀ x, g (f x) = g x) :
    (dlookup (dmodify m k f) k').map g = (dlookup m k').map g := by
  by_cases h : k = k'
  · subst h
    rw [dlookup_dmodify_self]
    cases dlookup m k <;> simp [hg]
  · rw [dlookup_dmodify_ne _ _ _ _ h]

theorem dlookup_dmodify_map_const {α β γ : Type} [DecidableEq α] (m : List (α × β))
    (k k' : α) (f : β → β) (g : β → γ) (c : γ)
    (hc : (dlookup m k').map g = some c) (hf : ∀ x, g (f x) = c) :
    (dlookup (dmodify m k f) k').map g = some c := by
  by_cases h : k = k'
  · subst h
    rw [dlookup_dmodify_self]
    obtain ⟨w, hw, _⟩ := Option.map_eq_some'.mp hc
    rw [hw]
    simp [hf]
  · rw [dlookup_dmodify_ne _ _ _ _ h]
    exact hc

theorem dlookup_append_map {α β γ : Type} [DecidableEq α] {m : List (α × β)}
    {k : α} {g : β → γ} {c : γ} (m' : List (α × β))
    (h : (dlookup m k).map g = some c) :
    (dlookup (m ++ m') k).map g = some c := by
  obtain ⟨w, hw, hgw⟩ := Option.map_eq_some'.mp h
  rw [dlookup_append_left _ hw]
  simp [hgw]

theorem StoryEvent.init_event_id (hash : EData → Int) (ts : Nat) (etype : String)
    (d : EData) (p : Option EventId) (oref : Option String) :
    (StoryEvent.init hash ts etype d p oref).event_id = genId hash ts etype d := rfl

/-- Canonical form of add_event when the parent is supplied, exists, and the
generated id is fresh: the new entry is appended and the parent's child
list gains the new id. -/
theorem add_event_some_parent (hash : EData → Int) (tl : StoryTimeline) (ts : Nat)
    (etype : String) (d : EData) (pe : EventId) (oref : Option String)
    (hpe : (dlookup tl.events pe).isSome = true)
    (hfresh : dlookup tl.events (genId hash ts etype d) = none) :
    add_event hash tl ts etype d (some pe) oref =
      ({ tl with
          events := dmodify
            (tl.events ++ [(genId hash ts etype d,
              StoryEvent.init hash ts etype d (some pe) oref)]) pe
            (fun x => { x with child_event_ids :=
              x.child_event_ids ++ [genId hash ts etype d] }),
          head_event_id := some (genId hash ts etype d),
          dirty := true }, genId hash ts etype d) := by
  have hsome : (dlookup (tl.events ++ [(genId hash ts etype d,
      StoryEvent.init hash ts etype d (some pe) oref)]) pe).isSome = true := by
    exact dlookup_append_isSome _ hpe
  simp only [add_event, StoryEvent.init_event_id]
  rw [dinsert_of_not_mem _ hfresh, if_pos hsome]

theorem reparentChildren_nil (bid : EventId) (evs : List (EventId × StoryEvent)) :
    reparentChildren bid evs [] = evs := rfl

theorem reparentChildren_cons (bid : EventId) (evs : List (EventId × StoryEvent))
    (cid : EventId) (rest : List EventId)
    (h : (dlookup evs cid).isSome = true) :
    reparentChildren bid evs (cid :: rest) =
      reparentChildren bid
        (dmodify (dmodify evs cid (fun ce => { ce with parent_event_id := some bid }))
          bid (fun be => { be with child_event_ids := be.child_event_ids ++ [cid] }))
        rest := by
  simp only [reparentChildren, h, if_true]

theorem cbpLoop_nil (hash : EData → Int) (eid : EventId) (existing : List EventId)
    (tl : StoryTimeline) (acc : List EventId) :
    cbpLoop hash eid existing tl [] acc = (tl, acc) := rfl

/-- One step of the branch-creation loop on the first iteration (empty
accumulator) when the branch point has saved children: the new branch
event is added, the children re-attached to it, and its choice recorded. -/
theorem cbpLoop_cons_first (hash : EData → Int) (eid : EventId)
    (existing : List EventId) (tl : StoryTimeline) (c : ChoiceInput) (ts : Nat)
    (rest : List (ChoiceInput × Nat)) (tlA : StoryTimeline) (bid : EventId)
    (hadd : add_event hash tl ts "branch_option"
      (EData.choiceData c.text c.content) (some eid) none = (tlA, bid))
    (hex : existing ≠ []) :
    cbpLoop hash eid existing tl ((c, ts) :: rest) [] =
      cbpLoop hash eid existing
        { tlA with
          events := dmodify (reparentChildren bid tlA.events existing) eid
            (fun e => { e with branch_choices := e.branch_choices ++ [⟨c.text, bid⟩] }) }
        rest [bid] := by
  simp only [cbpLoop, hadd]
  simp [hex]

/-- One step of the branch-creation loop on a later iteration (non-empty
accumulator): a plain branch-event addition plus its choice record. -/
theorem cbpLoop_cons_rest (hash : EData → Int) (eid : EventId)
    (existing : List EventId) (tl : StoryTimeline) (c : ChoiceInput) (ts : Nat)
    (rest : List (ChoiceInput × Nat)) (acc : List EventId) (tlA : StoryTimeline)
    (bid : EventId)
    (hadd : add_event hash tl ts "branch_option"
      (EData.choiceData c.text c.content) (some eid) none = (tlA, bid))
    (hacc : acc ≠ []) :
    cbpLoop hash eid existing tl ((c, ts) :: rest) acc =
      cbpLoop hash eid existing
        { tlA with
          events := dmodify tlA.events eid
            (fun e => { e with branch_choices := e.branch_choices ++ [⟨c.text, bid⟩] }) }
        rest (acc ++ [bid]) := by
  simp only [cbpLoop, hadd]
  simp [hacc]

theorem dlookup_pset_keeps_gproj (m : List (EventId × StoryEvent)) (k k' : EventId)
    (bid : EventId) :
    (dlookup (dmodify m k (fun ce => { ce with parent_event_id := some bid })) k').map
      (fun e => (e.is_branch_point, e.child_event_ids, e.branch_choices)) =
    (dlookup m k').map
      (fun e => (e.is_branch_point, e.child_event_ids, e.branch_choices)) :=
  dlookup_dmodify_map _ _ _ _ _ (fun _ => rfl)

theorem dlookup_chapp_keeps_parent (m : List (EventId × StoryEvent)) (k k' : EventId)
    (bc : BranchChoice) :
    (dlookup (dmodify m k
      (fun e => { e with branch_choices := e.branch_choices ++ [bc] })) k').map
      (fun e => e.parent_event_id) =
    (dlookup m k').map (fun e => e.parent_event_id) :=
  dlookup_dmodify_map _ _ _ _ _ (fun _ => rfl)

theorem dlookup_capp_keeps_parent (m : List (EventId × StoryEvent)) (k k' : EventId)
    (b : EventId) :
    (dlookup (dmodify m k
      (fun x => { x with child_event_ids := x.child_event_ids ++ [b] })) k').map
      (fun e => e.parent_event_id) =
    (dlookup m k').map (fun e => e.parent_event_id) :=
  dlookup_dmodify_map _ _ _ _ _ (fun _ => rfl)

/-- The id generated for one branch option inside create_branch_point: its
add_event call uses kind branch_option and the dict built from the choice. -/
def branchId (hash : EData → Int) (ts : Nat) (c : ChoiceInput) : EventId :=
  genId hash ts "branch_option" (EData.choiceData c.text c.content)

/-- C4: on an event with existing children C1, C2 and a two-option list,
create_branch_point returns ok with the two new branch-option ids in
creation order, flags the event as a branch point, leaves it with exactly
the two branch_choices targeting the new option events, gives the first
created option event the children [C1, C2] with each child re-parented to
it, and leaves the second option event childless.  The freshness
hypotheses say the two generated ids are new and distinct, which holds in
the code whenever ids do not collide (the uniqueness the code itself
assumes). -/
theorem C4_branch_reattachment (hash : EData → Int) (tl : StoryTimeline)
    (eid : EventId) (a : StoryEvent) (c1 c2 : EventId) (ch1 ch2 : ChoiceInput)
    (ts1 ts2 : Nat)
    (ha : dlookup tl.events eid = some a)
    (hch : a.child_event_ids = [c1, c2])
    (hc1 : (dlookup tl.events c1).isSome = true)
    (hc2 : (dlookup tl.events c2).isSome = true)
    (hb1 : dlookup tl.events (branchId hash ts1 ch1) = none)
    (hb2 : dlookup tl.events (branchId hash ts2 ch2) = none)
    (hne : branchId hash ts1 ch1 ≠ branchId hash ts2 ch2) :
    (create_branch_point hash tl eid [ch1, ch2] [ts1, ts2]).2.1 = true ∧
    (create_branch_point hash tl eid [ch1, ch2] [ts1, ts2]).2.2 =
      [branchId hash ts1 ch1, branchId hash ts2 ch2] ∧
    (∃ e', dlookup (create_branch_point hash tl eid [ch1, ch2] [ts1, ts2]).1.events
        eid = some e' ∧ e'.is_branch_point = true ∧
      e'.child_event_ids = [branchId hash ts1 ch1, branchId hash ts2 ch2] ∧
      e'.branch_choices = [⟨ch1.text, branchId hash ts1 ch1⟩,
        ⟨ch2.text, branchId hash ts2 ch2⟩]) ∧
    (∃ f1, dlookup (create_branch_point hash tl eid [ch1, ch2] [ts1, ts2]).1.events
        (branchId hash ts1 ch1) = some f1 ∧ f1.parent_event_id = some eid ∧
      f1.child_event_ids = [c1, c2]) ∧
    (∃ f2, dlookup (create_branch_point hash tl eid [ch1, ch2] [ts1, ts2]).1.events
        (branchId hash ts2 ch2) = some f2 ∧ f2.parent_event_id = some eid ∧
      f2.child_event_ids = []) ∧
    (∃ g1, dlookup (create_branch_point hash tl eid [ch1, ch2] [ts1, ts2]).1.events
        c1 = some g1 ∧ g1.parent_event_id = some (branchId hash ts1 ch1)) ∧
    (∃ g2, dlookup (create_branch_point hash tl eid [ch1, ch2] [ts1, ts2]).1.events
        c2 = some g2 ∧ g2.parent_event_id = some (branchId hash ts1 ch1)) := by
  set b1 := branchId hash ts1 ch1 with hb1def
  set b2 := branchId hash ts2 ch2 with hb2def
  have heid : (dlookup tl.events eid).isSome = true := by rw [ha]; rfl
  have heb1 : eid ≠ b1 := ne_of_lookup_isSome_none heid hb1
  have heb2 : eid ≠ b2 := ne_of_lookup_isSome_none heid hb2
  have hc1b1 : c1 ≠ b1 := ne_of_lookup_isSome_none hc1 hb1
  have hc1b2 : c1 ≠ b2 := ne_of_lookup_isSome_none hc1 hb2
  have hc2b1 : c2 ≠ b1 := ne_of_lookup_isSome_none hc2 hb1
  have hc2b2 : c2 ≠ b2 := ne_of_lookup_isSome_none hc2 hb2
  set EV1 := dmodify tl.events eid (fun ev =>
    { ev with is_branch_point := true, child_event_ids := [],
              branch_choices := [] }) with hEV1
  set TL1 : StoryTimeline := { tl with events := EV1 } with hTL1
  set n1 := StoryEvent.init hash ts1 "branch_option"
    (EData.choiceData ch1.text ch1.content) (some eid) none with hn1
  set n2 := StoryEvent.init hash ts2 "branch_option"
    (EData.choiceData ch2.text ch2.content) (some eid) none with hn2
  set EV2 := EV1 ++ [(b1, n1)] with hEV2
  set EV3 := dmodify EV2 eid (fun x =>
    { x with child_event_ids := x.child_event_ids ++ [b1] }) with hEV3
  set TL3 : StoryTimeline :=
    { tl with events := EV3, head_event_id := some b1, dirty := true } with hTL3
  set EV4 := dmodify (dmodify EV3 c1 (fun ce => { ce with parent_event_id := some b1 }))
    b1 (fun be => { be with child_event_ids := be.child_event_ids ++ [c1] }) with hEV4
  set EV5 := dmodify (dmodify EV4 c2 (fun ce => { ce with parent_event_id := some b1 }))
    b1 (fun be => { be with child_event_ids := be.child_event_ids ++ [c2] }) with hEV5
  set EV6 := dmodify EV5 eid (fun e =>
    { e with branch_choices := e.branch_choices ++ [⟨ch1.text, b1⟩] }) with hEV6
  set TL6 : StoryTimeline :=
    { tl with events := EV6, head_event_id := some b1, dirty := true } with hTL6
  set EV7 := EV6 ++ [(b2, n2)] with hEV7
  set EV8 := dmodify EV7 eid (fun x =>
    { x with child_event_ids := x.child_event_ids ++ [b2] }) with hEV8
  set EV9 := dmodify EV8 eid (fun e =>
    { e with branch_choices := e.branch_choices ++ [⟨ch2.text, b2⟩] }) with hEV9
  set TL9 : StoryTimeline :=
    { tl with events := EV9, head_event_id := some b2, dirty := true } with hTL9
  -- keys of the intermediate stores
  have hkeys1 : dlookup EV1 b1 = none := by
    rw [hEV1, dlookup_eq_none_iff_not_mem_keys, dmodify_keys]
    exact (dlookup_eq_none_iff_not_mem_keys _ _).mp hb1
  have hE1eid : (dlookup EV1 eid).isSome = true := by
    rw [hEV1, dlookup_dmodify_self, ha]
    rfl
  have hE2eid : (dlookup EV2 eid).isSome = true := by
    rw [hEV2]
    exact dlookup_append_isSome _ hE1eid
  have hE3eid : (dlookup EV3 eid).isSome = true := by
    rw [hEV3, dlookup_dmodify_isSome]
    exact hE2eid
  have hE1c1 : (dlookup EV1 c1).isSome = true := by
    rw [hEV1, dlookup_dmodify_isSome]
    exact hc1
  have hE1c2 : (dlookup EV1 c2).isSome = true := by
    rw [hEV1, dlookup_dmodify_isSome]
    exact hc2
  have hE2c1 : (dlookup EV2 c1).isSome = true := by
    rw [hEV2]
    exact dlookup_append_isSome _ hE1c1
  have hE2c2 : (dlookup EV2 c2).isSome = true := by
    rw [hEV2]
    exact dlookup_append_isSome _ hE1c2
  have hE3c1 : (dlookup EV3 c1).isSome = true := by
    rw [hEV3, dlookup_dmodify_isSome]
    exact hE2c1
  have hE3c2 : (dlookup EV3 c2).isSome = true := by
    rw [hEV3, dlookup_dmodify_isSome]
    exact hE2c2
  have hE3xc2 : (dlookup (dmodify (dmodify EV3 c1
      (fun ce => { ce with parent_event_id := some b1 })) b1
      (fun be => { be with child_event_ids := be.child_event_ids ++ [c1] }))
      c2).isSome = true := by
    rw [dlookup_dmodify_isSome, dlookup_dmodify_isSome]
    exact hE3c2
  have hE4eid : (dlookup EV4 eid).isSome = true := by
    rw [hEV4, dlookup_dmodify_isSome, dlookup_dmodify_isSome]
    exact hE3eid
  have hE5eid : (dlookup EV5 eid).isSome = true := by
    rw [hEV5, dlookup_dmodify_isSome, dlookup_dmodify_isSome]
    exact hE4eid
  have hE6eid : (dlookup EV6 eid).isSome = true := by
    rw [hEV6, dlookup_dmodify_isSome]
    exact hE5eid
  have hE6b2 : dlookup EV6 b2 = none := by
    rw [hEV6, dlookup_eq_none_iff_not_mem_keys, dmodify_keys, hEV5, dmodify_keys,
      dmodify_keys, hEV4, dmodify_keys, dmodify_keys, hEV3, dmodify_keys, hEV2,
      List.map_append, hEV1, dmodify_keys]
    simp only [List.map_cons, List.map_nil, List.mem_append, List.mem_cons,
      List.not_mem_nil, or_false]
    rintro (hmem | hb)
    · exact (dlookup_eq_none_iff_not_mem_keys _ _).mp hb2 hmem
    · exact hne.symm hb
  -- the first add_event call
  have hadd1 : add_event hash TL1 ts1 "branch_option"
      (EData.choiceData ch1.text ch1.content) (some eid) none = (TL3, b1) :=
    add_event_some_parent hash TL1 ts1 "branch_option"
      (EData.choiceData ch1.text ch1.content) eid none hE1eid hkeys1
  -- the re-attachment loop on [c1, c2]
  have hrep : reparentChildren b1 EV3 [c1, c2] = EV5 := by
    rw [reparentChildren_cons _ _ _ _ hE3c1, reparentChildren_cons _ _ _ _ hE3xc2,
      reparentChildren_nil]
  -- first loop iteration
  have hloop1 : cbpLoop hash eid [c1, c2] TL1 [(ch1, ts1), (ch2, ts2)] [] =
      cbpLoop hash eid [c1, c2] TL6 [(ch2, ts2)] [b1] := by
    rw [cbpLoop_cons_first hash eid [c1, c2] TL1 ch1 ts1 [(ch2, ts2)] TL3 b1 hadd1
      (by simp)]
    rw [show TL3.events = EV3 from rfl, hrep]
  -- the second add_event call
  have hadd2 : add_event hash TL6 ts2 "branch_option"
      (EData.choiceData ch2.text ch2.content) (some eid) none =
      ({ tl with events := EV8, head_event_id := some b2, dirty := true }, b2) :=
    add_event_some_parent hash TL6 ts2 "branch_option"
      (EData.choiceData ch2.text ch2.content) eid none hE6eid hE6b2
  -- second loop iteration
  have hloop2 : cbpLoop hash eid [c1, c2] TL6 [(ch2, ts2)] [b1] = (TL9, [b1, b2]) := by
    rw [cbpLoop_cons_rest hash eid [c1, c2] TL6 ch2 ts2 [] [b1]
      { tl with events := EV8, head_event_id := some b2, dirty := true } b2 hadd2
      (by simp)]
    rw [cbpLoop_nil]
    exact rfl
  -- the whole operation
  have hcbp : create_branch_point hash tl eid [ch1, ch2] [ts1, ts2] =
      ({ TL9 with dirty := true }, true, [b1, b2]) := by
    simp only [create_branch_point, ha, List.zip_cons_cons, List.zip_nil_right]
    rw [hch]
    rw [← hEV1, ← hTL1, hloop1, hloop2]
  have hevents : (create_branch_point hash tl eid [ch1, ch2] [ts1, ts2]).1.events =
      EV9 := by rw [hcbp]
  refine ⟨by rw [hcbp], by rw [hcbp], ?_, ?_, ?_, ?_, ?_⟩
  · -- the branch point event
    have q1 : (dlookup EV1 eid).map (fun e =>
        (e.is_branch_point, e.child_event_ids, e.branch_choices)) =
        some (true, [], []) := by
      rw [hEV1, dlookup_dmodify_self, ha]
      rfl
    have q2 : (dlookup EV2 eid).map (fun e =>
        (e.is_branch_point, e.child_event_ids, e.branch_choices)) =
        some (true, [], []) := by
      rw [hEV2]
      exact dlookup_append_map _ q1
    have q3 : (dlookup EV3 eid).map (fun e =>
        (e.is_branch_point, e.child_event_ids, e.branch_choices)) =
        some (true, [b1], []) := by
      rw [hEV3, dlookup_dmodify_self]
      obtain ⟨w, hw, hgw⟩ := Option.map_eq_some'.mp q2
      rw [hw]
      simp only [Prod.mk.injEq] at hgw
      obtain ⟨hf, hcs, hbc⟩ := hgw
      simp [Option.map_some', hf, hcs, hbc]
    have q4 : (dlookup EV4 eid).map (fun e =>
        (e.is_branch_point, e.child_event_ids, e.branch_choices)) =
        some (true, [b1], []) := by
      rw [hEV4, dlookup_dmodify_ne _ _ _ _ (Ne.symm heb1),
        dlookup_pset_keeps_gproj _ c1 eid b1]
      exact q3
    have q5 : (dlookup EV5 eid).map (fun e =>
        (e.is_branch_point, e.child_event_ids, e.branch_choices)) =
        some (true, [b1], []) := by
      rw [hEV5, dlookup_dmodify_ne _ _ _ _ (Ne.symm heb1),
        dlookup_pset_keeps_gproj _ c2 eid b1]
      exact q4
    have q6 : (dlookup EV6 eid).map (fun e =>
        (e.is_branch_point, e.child_event_ids, e.branch_choices)) =
        some (true, [b1], [(⟨ch1.text, b1⟩ : BranchChoice)]) := by
      rw [hEV6, dlookup_dmodify_self]
      obtain ⟨w, hw, hgw⟩ := Option.map_eq_some'.mp q5
      rw [hw]
      simp only [Prod.mk.injEq] at hgw
      obtain ⟨hf, hcs, hbc⟩ := hgw
      simp [Option.map_some', hf, hcs, hbc]
    have q7 : (dlookup EV7 eid).map (fun e =>
        (e.is_branch_point, e.child_event_ids, e.branch_choices)) =
        some (true, [b1], [(⟨ch1.text, b1⟩ : BranchChoice)]) := by
      rw [hEV7]
      exact dlookup_append_map _ q6
    have q8 : (dlookup EV8 eid).map (fun e =>
        (e.is_branch_point, e.child_event_ids, e.branch_choices)) =
        some (true, [b1, b2], [(⟨ch1.text, b1⟩ : BranchChoice)]) := by
      rw [hEV8, dlookup_dmodify_self]
      obtain ⟨w, hw, hgw⟩ := Option.map_eq_some'.mp q7
      rw [hw]
      simp only [Prod.mk.injEq] at hgw
      obtain ⟨hf, hcs, hbc⟩ := hgw
      simp [Option.map_some', hf, hcs, hbc]
    have q9 : (dlookup EV9 eid).map (fun e =>
        (e.is_branch_point, e.child_event_ids, e.branch_choices)) =
        some (true, [b1, b2], [(⟨ch1.text, b1⟩ : BranchChoice),
          (⟨ch2.text, b2⟩ : BranchChoice)]) := by
      rw [hEV9, dlookup_dmodify_self]
      obtain ⟨w, hw, hgw⟩ := Option.map_eq_some'.mp q8
      rw [hw]
      simp only [Prod.mk.injEq] at hgw
      obtain ⟨hf, hcs, hbc⟩ := hgw
      simp [Option.map_some', hf, hcs, hbc]
    rw [hevents]
    obtain ⟨e', he', hge'⟩ := Option.map_eq_some'.mp q9
    simp only [Prod.mk.injEq] at hge'
    exact ⟨e', he', hge'.1, hge'.2.1, hge'.2.2⟩
  · -- the first branch option event
    have r2 : dlookup EV2 b1 = some n1 := by
      rw [hEV2, dlookup_append_right _ hkeys1]
      simp [dlookup]
    have r3 : dlookup EV3 b1 = some n1 := by
      rw [hEV3, dlookup_dmodify_ne _ _ _ _ heb1]
      exact r2
    have r3x : dlookup (dmodify EV3 c1
        (fun ce => { ce with parent_event_id := some b1 })) b1 = some n1 := by
      rw [dlookup_dmodify_ne _ _ _ _ hc1b1]
      exact r3
    have r4 : dlookup EV4 b1 = some { n1 with child_event_ids := [c1] } := by
      rw [hEV4, dlookup_dmodify_self, r3x]
      rfl
    have r4x : dlookup (dmodify EV4 c2
        (fun ce => { ce with parent_event_id := some b1 })) b1 =
        some { n1 with child_event_ids := [c1] } := by
      rw [dlookup_dmodify_ne _ _ _ _ hc2b1]
      exact r4
    have r5 : dlookup EV5 b1 = some { n1 with child_event_ids := [c1, c2] } := by
      rw [hEV5, dlookup_dmodify_self, r4x]
      rfl
    have r6 : dlookup EV6 b1 = some { n1 with child_event_ids := [c1, c2] } := by
      rw [hEV6, dlookup_dmodify_ne _ _ _ _ heb1]
      exact r5
    have r7 : dlookup EV7 b1 = some { n1 with child_event_ids := [c1, c2] } := by
      rw [hEV7]
      exact dlookup_append_left _ r6
    have r8 : dlookup EV8 b1 = some { n1 with child_event_ids := [c1, c2] } := by
      rw [hEV8, dlookup_dmodify_ne _ _ _ _ heb1]
      exact r7
    have r9 : dlookup EV9 b1 = some { n1 with child_event_ids := [c1, c2] } := by
      rw [hEV9, dlookup_dmodify_ne _ _ _ _ heb1]
      exact r8
    rw [hevents]
    exact ⟨{ n1 with child_event_ids := [c1, c2] }, r9, rfl, rfl⟩
  · -- the second branch option event
    have s7 : dlookup EV7 b2 = some n2 := by
      rw [hEV7, dlookup_append_right _ hE6b2]
      simp [dlookup]
    have s8 : dlookup EV8 b2 = some n2 := by
      rw [hEV8, dlookup_dmodify_ne _ _ _ _ heb2]
      exact s7
    have s9 : dlookup EV9 b2 = some n2 := by
      rw [hEV9, dlookup_dmodify_ne _ _ _ _ heb2]
      exact s8
    rw [hevents]
    exact ⟨n2, s9, rfl, rfl⟩
  · -- c1 is re-parented to the first branch option
    have t4 : (dlookup EV4 c1).map (fun e => e.parent_event_id) =
        some (some b1) := by
      rw [hEV4, dlookup_dmodify_ne _ _ _ _ (Ne.symm hc1b1), dlookup_dmodify_self]
      obtain ⟨w, hw⟩ := Option.isSome_iff_exists.mp hE3c1
      rw [hw]
      rfl
    have t4x : (dlookup (dmodify EV4 c2
        (fun ce => { ce with parent_event_id := some b1 })) c1).map
        (fun e => e.parent_event_id) = some (some b1) :=
      dlookup_dmodify_map_const _ _ _ _ _ _ t4 (fun x => rfl)
    have t5 : (dlookup EV5 c1).map (fun e => e.parent_event_id) =
        some (some b1) := by
      rw [hEV5, dlookup_dmodify_ne _ _ _ _ (Ne.symm hc1b1)]
      exact t4x
    have t6 : (dlookup EV6 c1).map (fun e => e.parent_event_id) =
        some (some b1) := by
      rw [hEV6, dlookup_chapp_keeps_parent _ eid c1 _]
      exact t5
    have t7 : (dlookup EV7 c1).map (fun e => e.parent_event_id) =
        some (some b1) := by
      rw [hEV7]
      exact dlookup_append_map _ t6
    have t8 : (dlookup EV8 c1).map (fun e => e.parent_event_id) =
        some (some b1) := by
      rw [hEV8, dlookup_capp_keeps_parent _ eid c1 b2]
      exact t7
    have t9 : (dlookup EV9 c1).map (fun e => e.parent_event_id) =
        some (some b1) := by
      rw [hEV9, dlookup_chapp_keeps_parent _ eid c1 _]
      exact t8
    rw [hevents]
    obtain ⟨g1, hg1, hpg1⟩ := Option.map_eq_some'.mp t9
    exact ⟨g1, hg1, hpg1⟩
  · -- c2 is re-parented to the first branch option
    have u4 : (dlookup EV4 c2).isSome = true := by
      rw [hEV4, dlookup_dmodify_isSome, dlookup_dmodify_isSome]
      exact hE3c2
    have u4x : (dlookup (dmodify EV4 c2
        (fun ce => { ce with parent_event_id := some b1 })) c2).map
        (fun e => e.parent_event_id) = some (some b1) := by
      rw [dlookup_dmodify_self]
      obtain ⟨w, hw⟩ := Option.isSome_iff_exists.mp u4
      rw [hw]
      rfl
    have u5 : (dlookup EV5 c2).map (fun e => e.parent_event_id) =
        some (some b1) := by
      rw [hEV5, dlookup_dmodify_ne _ _ _ _ (Ne.symm hc2b1)]
      exact u4x
    have u6 : (dlookup EV6 c2).map (fun e => e.parent_event_id) =
        some (some b1) := by
      rw [hEV6, dlookup_chapp_keeps_parent _ eid c2 _]
      exact u5
    have u7 : (dlookup EV7 c2).map (fun e => e.parent_event_id) =
        some (some b1) := by
      rw [hEV7]
      exact dlookup_append_map _ u6
    have u8 : (dlookup EV8 c2).map (fun e => e.parent_event_id) =
        some (some b1) := by
      rw [hEV8, dlookup_capp_keeps_parent _ eid c2 b2]
      exact u7
    have u9 : (dlookup EV9 c2).map (fun e => e.parent_event_id) =
        some (some b1) := by
      rw [hEV9, dlookup_chapp_keeps_parent _ eid c2 _]
      exact u8
    rw [hevents]
    obtain ⟨g2, hg2, hpg2⟩ := Option.map_eq_some'.mp u9
    exact ⟨g2, hg2, hpg2⟩

/-! Fixture for the branch-point claims: event A with two children C1, C2. -/

def bpA : StoryTimeline × EventId :=
  add_event hash0 StoryTimeline.init 1 "text_node" (.text "A") none none

def bpC1 : StoryTimeline × EventId :=
  add_event hash0 bpA.1 2 "text_node" (.text "C1") (some bpA.2) none

def bpC2 : StoryTimeline × EventId :=
  add_event hash0 bpC1.1 3 "text_node" (.text "C2") (some bpA.2) none

theorem C4_branch_reattachment_witness :
    (create_branch_point hash0 bpC2.1 bpA.2 [⟨"x", .emptyDict⟩, ⟨"y", .emptyDict⟩]
      [10, 11]).2.1 = true ∧
    (create_branch_point hash0 bpC2.1 bpA.2 [⟨"x", .emptyDict⟩, ⟨"y", .emptyDict⟩]
      [10, 11]).2.2 =
      [branchId hash0 10 ⟨"x", .emptyDict⟩, branchId hash0 11 ⟨"y", .emptyDict⟩] ∧
    (∃ e', dlookup (create_branch_point hash0 bpC2.1 bpA.2
        [⟨"x", .emptyDict⟩, ⟨"y", .emptyDict⟩] [10, 11]).1.events bpA.2 = some e' ∧
      e'.is_branch_point = true ∧
      e'.child_event_ids =
        [branchId hash0 10 ⟨"x", .emptyDict⟩, branchId hash0 11 ⟨"y", .emptyDict⟩] ∧
      e'.branch_choices = [⟨"x", branchId hash0 10 ⟨"x", .emptyDict⟩⟩,
        ⟨"y", branchId hash0 11 ⟨"y", .emptyDict⟩⟩]) ∧
    (∃ f1, dlookup (create_branch_point hash0 bpC2.1 bpA.2
        [⟨"x", .emptyDict⟩, ⟨"y", .emptyDict⟩] [10, 11]).1.events
        (branchId hash0 10 ⟨"x", .emptyDict⟩) = some f1 ∧
      f1.parent_event_id = some bpA.2 ∧ f1.child_event_ids = [bpC1.2, bpC2.2]) ∧
    (∃ f2, dlookup (create_branch_point hash0 bpC2.1 bpA.2
        [⟨"x", .emptyDict⟩, ⟨"y", .emptyDict⟩] [10, 11]).1.events
        (branchId hash0 11 ⟨"y", .emptyDict⟩) = some f2 ∧
      f2.parent_event_id = some bpA.2 ∧ f2.child_event_ids = []) ∧
    (∃ g1, dlookup (create_branch_point hash0 bpC2.1 bpA.2
        [⟨"x", .emptyDict⟩, ⟨"y", .emptyDict⟩] [10, 11]).1.events bpC1.2 = some g1 ∧
      g1.parent_event_id = some (branchId hash0 10 ⟨"x", .emptyDict⟩)) ∧
    (∃ g2, dlookup (create_branch_point hash0 bpC2.1 bpA.2
        [⟨"x", .emptyDict⟩, ⟨"y", .emptyDict⟩] [10, 11]).1.events bpC2.2 = some g2 ∧
      g2.parent_event_id = some (branchId hash0 10 ⟨"x", .emptyDict⟩)) :=
  C4_branch_reattachment hash0 bpC2.1 bpA.2
    ⟨⟨1, "text_node", 0⟩, 1, "text_node", .text "A", none,
      [⟨2, "text_node", 0⟩, ⟨3, "text_node", 0⟩], none, none, false, []⟩
    bpC1.2 bpC2.2 ⟨"x", .emptyDict⟩ ⟨"y", .emptyDict⟩ 10 11
    (by decide) (by decide) (by decide) (by decide) (by decide) (by decide)
    (by decide)

/-! ## Bidirectional parent/child consistency (C2) -/

/-- The claimed invariant: every event whose parent_id is some p has p
present in events with the event registered among p's children. -/
def Bidir (tl : StoryTimeline) : Prop :=
  ∀ pr ∈ tl.events, ∀ p, pr.2.parent_event_id = some p →
    ∃ pe, dlookup tl.events p = some pe ∧ pr.1 ∈ pe.child_event_ids

/-- The claim's restriction on add_event calls: the parent is either
defaulted (omitted) or an existing event. -/
def parentOk (tl : StoryTimeline) : Option EventId → Prop
  | none => True
  | some p => (dlookup tl.events p).isSome = true

/-- States reachable by the public mutation API exactly as the claim lists
it: add_event with existing or defaulted parent, create_branch_point,
select_branch, undo_generation and the asset operations, starting from the
empty timeline. -/
inductive ReachFull (hash : EData → Int) : StoryTimeline → Prop where
  | start : ReachFull hash StoryTimeline.init
  | add_ev (tl : StoryTimeline) (ts : Nat) (etype : String) (d : EData)
      (p? : Option EventId) (oref : Option String) (h : ReachFull hash tl)
      (hp : parentOk tl p?) :
      ReachFull hash (add_event hash tl ts etype d p? oref).1
  | branch (tl : StoryTimeline) (eid : EventId) (choices : List ChoiceInput)
      (tss : List Nat) (h : ReachFull hash tl) :
      ReachFull hash (create_branch_point hash tl eid choices tss).1
  | selectB (tl : StoryTimeline) (bid : EventId) (h : ReachFull hash tl) :
      ReachFull hash (select_branch tl bid).1
  | undo (tl : StoryTimeline) (r : Option String) (h : ReachFull hash tl) :
      ReachFull hash (undo_ollama_generation tl r).1
  | addA (tl : StoryTimeline) (c a : String) (m : AData) (h : ReachFull hash tl) :
      ReachFull hash (add_asset tl c a m).1
  | removeA (tl : StoryTimeline) (c a : String) (h : ReachFull hash tl) :
      ReachFull hash (remove_asset tl c a).1

/-! Fixture producing a dangling child: D1 plain, D2 generated (ref g2) as
its child, D3 plain as D2's child; undoing g2 removes only D2, leaving D3
with a parent reference to a missing event. -/

def dang1 : StoryTimeline × EventId :=
  add_event hash0 StoryTimeline.init 1 "text_node" (.text "D1") none none

def dang2 : StoryTimeline × EventId :=
  add_event hash0 dang1.1 2 "ollama_generation" (.gen "p" "D2") none (some "g2")

def dang3 : StoryTimeline × EventId :=
  add_event hash0 dang2.1 3 "text_node" (.text "D3") none none

def dangUndo : StoryTimeline × Bool :=
  undo_ollama_generation dang3.1 (some "g2")

/-- C2 counterexample: the claim quantifies over every state reachable by
the listed mutations including undo_generation, but undoing a generation
whose event has a surviving child leaves that child with a parent_id that
is no longer a key of events, so bidirectional consistency fails on a
reachable state. -/
theorem C2_bidirectional_counterexample :
    ReachFull hash0 dangUndo.1 ∧ ¬ Bidir dangUndo.1 := by
  constructor
  · exact ReachFull.undo dang3.1 (some "g2")
      (ReachFull.add_ev dang2.1 3 "text_node" (.text "D3") none none
        (ReachFull.add_ev dang1.1 2 "ollama_generation" (.gen "p" "D2") none
          (some "g2")
          (ReachFull.add_ev StoryTimeline.init 1 "text_node" (.text "D1") none none
            ReachFull.start trivial)
          trivial)
        trivial)
  · intro h
    obtain ⟨pe, hpe, _⟩ := h (⟨3, "text_node", 0⟩,
      ⟨⟨3, "text_node", 0⟩, 3, "text_node", .text "D3",
        some ⟨2, "ollama_generation", 0⟩, [], none, none, false, []⟩)
      (by decide) ⟨2, "ollama_generation", 0⟩ rfl
    have hnone : dlookup dangUndo.1.events ⟨2, "ollama_generation", 0⟩ = none := by
      decide
    rw [hnone] at hpe
    exact Option.noConfusion hpe

/-! ## The graph invariant preserved by the undo-free API -/

/-- Well-formedness of the event graph: unique dict keys, bidirectional
parent/child consistency in both directions, a head that exists, and no
self-parenting (which the API can never produce). -/
structure WF (tl : StoryTimeline) : Prop where
  nodupKeys : (tl.events.map Prod.fst).Nodup
  parentChild : ∀ id e p, dlookup tl.events id = some e →
    e.parent_event_id = some p →
    ∃ pe, dlookup tl.events p = some pe ∧ id ∈ pe.child_event_ids
  childParent : ∀ id e c, dlookup tl.events id = some e →
    c ∈ e.child_event_ids →
    ∃ ce, dlookup tl.events c = some ce ∧ ce.parent_event_id = some id
  headOk : ∀ hd, tl.head_event_id = some hd → (dlookup tl.events hd).isSome = true
  noSelfParent : ∀ id e, dlookup tl.events id = some e →
    e.parent_event_id ≠ some id

theorem WF.congr {tl tl' : StoryTimeline} (hwf : WF tl)
    (he : tl'.events = tl.events) (hh : tl'.head_event_id = tl.head_event_id) :
    WF tl' := by
  refine ⟨?_, ?_, ?_, ?_, ?_⟩ <;> rw [he]
  · exact hwf.nodupKeys
  · exact hwf.parentChild
  · exact hwf.childParent
  · rw [hh]
    exact hwf.headOk
  · exact hwf.noSelfParent

theorem WF_set_dirty (tl : StoryTimeline) (hwf : WF tl) :
    WF { tl with dirty := true } :=
  WF.congr hwf rfl rfl

theorem WF_init : WF StoryTimeline.init := by
  refine ⟨List.nodup_nil, ?_, ?_, ?_, ?_⟩
  · intro id e p hle
    simp [StoryTimeline.init, dlookup] at hle
  · intro id e c hle
    simp [StoryTimeline.init, dlookup] at hle
  · intro hd hhd
    simp [StoryTimeline.init] at hhd
  · intro id e hle
    simp [StoryTimeline.init, dlookup] at hle

theorem dlookup_append_single_self {α β : Type} [DecidableEq α]
    {m : List (α × β)} {k : α} (v : β) (h : dlookup m k = none) :
    dlookup (m ++ [(k, v)]) k = some v := by
  rw [dlookup_append_right _ h]
  simp [dlookup]

theorem dlookup_append_single_ne {α β : Type} [DecidableEq α]
    {m : List (α × β)} {k k' : α} {v : β} (h : k ≠ k') :
    dlookup (m ++ [(k, v)]) k' = dlookup m k' := by
  cases hl : dlookup m k' with
  | some w => exact dlookup_append_left _ hl
  | none =>
    rw [dlookup_append_right _ hl]
    simp [dlookup, h]

/-- add_event with an omitted parent and no head: the new root event is
simply appended. -/
theorem add_event_no_parent (hash : EData → Int) (tl : StoryTimeline) (ts : Nat)
    (etype : String) (d : EData) (oref : Option String)
    (hh : tl.head_event_id = none)
    (hfresh : dlookup tl.events (genId hash ts etype d) = none) :
    add_event hash tl ts etype d none oref =
      ({ tl with
          events := tl.events ++
            [(genId hash ts etype d, StoryEvent.init hash ts etype d none oref)],
          head_event_id := some (genId hash ts etype d),
          dirty := true }, genId hash ts etype d) := by
  simp only [add_event, StoryEvent.init_event_id, hh]
  rw [dinsert_of_not_mem _ hfresh]

/-- add_event with an omitted parent defaults it to the current head. -/
theorem add_event_defaulted (hash : EData → Int) (tl : StoryTimeline) (ts : Nat)
    (etype : String) (d : EData) (oref : Option String) (hd : EventId)
    (hh : tl.head_event_id = some hd) :
    add_event hash tl ts etype d none oref =
      add_event hash tl ts etype d (some hd) oref := by
  simp only [add_event, hh]

/-- Adding a fresh event whose parent exists preserves the invariant. -/
theorem WF_add_registered {tl : StoryTimeline} (nid : EventId) (newEv : StoryEvent)
    (p : EventId) (pe : StoryEvent)
    (hfresh : dlookup tl.events nid = none)
    (hp : dlookup tl.events p = some pe)
    (hnewp : newEv.parent_event_id = some p)
    (hnewc : newEv.child_event_ids = [])
    (hwf : WF tl) :
    WF { tl with
      events := dmodify (tl.events ++ [(nid, newEv)]) p
        (fun x => { x with child_event_ids := x.child_event_ids ++ [nid] }),
      head_event_id := some nid, dirty := true } := by
  have hpn : p ≠ nid := ne_of_lookup_isSome_none (by rw [hp]; rfl) hfresh
  set E2 := dmodify (tl.events ++ [(nid, newEv)]) p
    (fun x => { x with child_event_ids := x.child_event_ids ++ [nid] }) with hE2
  set pe' : StoryEvent :=
    { pe with child_event_ids := pe.child_event_ids ++ [nid] } with hpe'
  have l_nid : dlookup E2 nid = some newEv := by
    rw [hE2, dlookup_dmodify_ne _ _ _ _ hpn, dlookup_append_single_self _ hfresh]
  have l_p : dlookup E2 p = some pe' := by
    rw [hE2, dlookup_dmodify_self, dlookup_append_single_ne (Ne.symm hpn), hp]
    rfl
  have l_other : ∀ k, k ≠ nid → k ≠ p → dlookup E2 k = dlookup tl.events k := by
    intro k hk1 hk2
    rw [hE2, dlookup_dmodify_ne _ _ _ _ (Ne.symm hk2),
      dlookup_append_single_ne (Ne.symm hk1)]
  have hmem_ne_nid : ∀ k (e : StoryEvent), dlookup tl.events k = some e →
      k ≠ nid := fun k e hk => ne_of_lookup_isSome_none (by rw [hk]; rfl) hfresh
  refine ⟨?_, ?_, ?_, ?_, ?_⟩
  · show (E2.map Prod.fst).Nodup
    rw [hE2, dmodify_keys, List.map_append]
    refine List.Nodup.append hwf.nodupKeys (List.nodup_singleton _) ?_
    intro a ha hb
    simp only [List.map_cons, List.map_nil, List.mem_singleton] at hb
    subst hb
    exact (dlookup_eq_none_iff_not_mem_keys _ _).mp hfresh ha
  · show ∀ id e q, dlookup E2 id = some e → e.parent_event_id = some q →
      ∃ qe, dlookup E2 q = some qe ∧ id ∈ qe.child_event_ids
    intro id e q hle hq
    by_cases hid : id = nid
    · subst hid
      rw [l_nid] at hle
      cases Option.some.inj hle
      rw [hnewp] at hq
      cases Option.some.inj hq
      exact ⟨pe', l_p, by rw [hpe']; simp⟩
    · by_cases hip : id = p
      · rw [hip] at hle ⊢
        rw [l_p] at hle
        cases Option.some.inj hle
        have hq' : pe.parent_event_id = some q := hq
        obtain ⟨qe, hqe, hqm⟩ := hwf.parentChild p pe q hp hq'
        have hqnid : q ≠ nid := hmem_ne_nid q qe hqe
        by_cases hqp : q = p
        · rw [hqp] at hqe
          rw [hp] at hqe
          cases Option.some.inj hqe
          exact ⟨pe', by rw [hqp]; exact l_p,
            by rw [hpe']; exact List.mem_append_left _ hqm⟩
        · exact ⟨qe, by rw [l_other q hqnid hqp]; exact hqe, hqm⟩
      · rw [l_other id hid hip] at hle
        obtain ⟨qe, hqe, hqm⟩ := hwf.parentChild id e q hle hq
        have hqnid : q ≠ nid := hmem_ne_nid q qe hqe
        by_cases hqp : q = p
        · rw [hqp] at hqe
          rw [hp] at hqe
          cases Option.some.inj hqe
          exact ⟨pe', by rw [hqp]; exact l_p,
            by rw [hpe']; exact List.mem_append_left _ hqm⟩
        · exact ⟨qe, by rw [l_other q hqnid hqp]; exact hqe, hqm⟩
  · show ∀ id e c, dlookup E2 id = some e → c ∈ e.child_event_ids →
      ∃ ce, dlookup E2 c = some ce ∧ ce.parent_event_id = some id
    intro id e c hle hc
    by_cases hid : id = nid
    · subst hid
      rw [l_nid] at hle
      cases Option.some.inj hle
      rw [hnewc] at hc
      exact absurd hc (List.not_mem_nil c)
    · by_cases hip : id = p
      · rw [hip] at hle ⊢
        rw [l_p] at hle
        cases Option.some.inj hle
        have hc' : c ∈ pe.child_event_ids ++ [nid] := hc
        rcases List.mem_append.mp hc' with hcold | hcnew
        · obtain ⟨ce, hce, hcp⟩ := hwf.childParent p pe c hp hcold
          have hcnid : c ≠ nid := hmem_ne_nid c ce hce
          by_cases hcq : c = p
          · rw [hcq] at hce
            rw [hp] at hce
            cases Option.some.inj hce
            exact absurd hcp (hwf.noSelfParent p pe hp)
          · exact ⟨ce, by rw [l_other c hcnid hcq]; exact hce, hcp⟩
        · have hcn : c = nid := by simpa using hcnew
          rw [hcn]
          exact ⟨newEv, l_nid, by rw [hnewp]⟩
      · rw [l_other id hid hip] at hle
        obtain ⟨ce, hce, hcp⟩ := hwf.childParent id e c hle hc
        have hcnid : c ≠ nid := hmem_ne_nid c ce hce
        by_cases hcq : c = p
        · rw [hcq] at hce
          rw [hp] at hce
          cases Option.some.inj hce
          exact ⟨pe', by rw [hcq]; exact l_p, hcp⟩
        · exact ⟨ce, by rw [l_other c hcnid hcq]; exact hce, hcp⟩
  · show ∀ hd, some nid = some hd → (dlookup E2 hd).isSome = true
    intro hd hhd
    cases Option.some.inj hhd
    rw [l_nid]
    rfl
  · show ∀ id e, dlookup E2 id = some e → e.parent_event_id ≠ some id
    intro id e hle
    by_cases hid : id = nid
    · subst hid
      rw [l_nid] at hle
      cases Option.some.inj hle
      rw [hnewp]
      intro hcon
      exact hpn (Option.some.inj hcon)
    · by_cases hip : id = p
      · rw [hip] at hle ⊢
        rw [l_p] at hle
        cases Option.some.inj hle
        exact hwf.noSelfParent p pe hp
      · rw [l_other id hid hip] at hle
        exact hwf.noSelfParent id e hle

/-- Adding a fresh root event (no parent) preserves the invariant. -/
theorem WF_add_unregistered {tl : StoryTimeline} (nid : EventId) (newEv : StoryEvent)
    (hfresh : dlookup tl.events nid = none)
    (hnewp : newEv.parent_event_id = none)
    (hnewc : newEv.child_event_ids = [])
    (hwf : WF tl) :
    WF { tl with
        events := tl.events ++ [(nid, newEv)],
        head_event_id := some nid,
        dirty := true } := by
  have l_nid : dlookup (tl.events ++ [(nid, newEv)]) nid = some newEv :=
    dlookup_append_single_self _ hfresh
  have l_other : ∀ k, k ≠ nid →
      dlookup (tl.events ++ [(nid, newEv)]) k = dlookup tl.events k := by
    intro k hk
    exact dlookup_append_single_ne (Ne.symm hk)
  have hmem_ne_nid : ∀ k (e : StoryEvent), dlookup tl.events k = some e →
      k ≠ nid := fun k e hk => ne_of_lookup_isSome_none (by rw [hk]; rfl) hfresh
  refine ⟨?_, ?_, ?_, ?_, ?_⟩
  · show ((tl.events ++ [(nid, newEv)]).map Prod.fst).Nodup
    rw [List.map_append]
    refine List.Nodup.append hwf.nodupKeys (List.nodup_singleton _) ?_
    intro a ha hb
    simp only [List.map_cons, List.map_nil, List.mem_singleton] at hb
    subst hb
    exact (dlookup_eq_none_iff_not_mem_keys _ _).mp hfresh ha
  · intro id e q hle hq
    by_cases hid : id = nid
    · subst hid
      rw [l_nid] at hle
      cases Option.some.inj hle
      rw [hnewp] at hq
      exact Option.noConfusion hq
    · rw [l_other id hid] at hle
      obtain ⟨qe, hqe, hqm⟩ := hwf.parentChild id e q hle hq
      exact ⟨qe, by rw [l_other q (hmem_ne_nid q qe hqe)]; exact hqe, hqm⟩
  · intro id e c hle hc
    by_cases hid : id = nid
    · subst hid
      rw [l_nid] at hle
      cases Option.some.inj hle
      rw [hnewc] at hc
      exact absurd hc (List.not_mem_nil c)
    · rw [l_other id hid] at hle
      obtain ⟨ce, hce, hcp⟩ := hwf.childParent id e c hle hc
      exact ⟨ce, by rw [l_other c (hmem_ne_nid c ce hce)]; exact hce, hcp⟩
  · intro hd hhd
    cases Option.some.inj hhd
    rw [l_nid]
    rfl
  · intro id e hle
    by_cases hid : id = nid
    · subst hid
      rw [l_nid] at hle
      cases Option.some.inj hle
      rw [hnewp]
      exact fun hcon => Option.noConfusion hcon
    · rw [l_other id hid] at hle
      exact hwf.noSelfParent id e hle

/-- add_event with an existing or defaulted parent and a fresh generated id
preserves the invariant. -/
theorem WF_add (hash : EData → Int) {tl : StoryTimeline} (ts : Nat) (etype : String)
    (d : EData) (p? : Option EventId) (oref : Option String) (hwf : WF tl)
    (hpOk : parentOk tl p?)
    (hfresh : dlookup tl.events (genId hash ts etype d) = none) :
    WF (add_event hash tl ts etype d p? oref).1 := by
  cases p? with
  | some p =>
    obtain ⟨pe, hpe⟩ := Option.isSome_iff_exists.mp hpOk
    rw [add_event_some_parent hash tl ts etype d p oref (by rw [hpe]; rfl) hfresh]
    exact WF_add_registered _ _ p pe hfresh hpe rfl rfl hwf
  | none =>
    cases hh : tl.head_event_id with
    | none =>
      rw [add_event_no_parent hash tl ts etype d oref hh hfresh]
      exact WF_add_unregistered _ _ hfresh rfl rfl hwf
    | some hd =>
      rw [add_event_defaulted hash tl ts etype d oref hd hh]
      obtain ⟨pe, hpe⟩ := Option.isSome_iff_exists.mp (hwf.headOk hd hh)
      rw [add_event_some_parent hash tl ts etype d hd oref (by rw [hpe]; rfl) hfresh]
      exact WF_add_registered _ _ hd pe hfresh hpe rfl rfl hwf

/-- Modifying one stored event without changing its parent link or child
list preserves the invariant. -/
theorem WF_events_modify_at {tl : StoryTimeline} (k : EventId)
    (f : StoryEvent → StoryEvent) (e0 : StoryEvent)
    (he0 : dlookup tl.events k = some e0)
    (hfp : (f e0).parent_event_id = e0.parent_event_id)
    (hfc : (f e0).child_event_ids = e0.child_event_ids)
    (hwf : WF tl) :
    WF { tl with events := dmodify tl.events k f } := by
  have l_k : dlookup (dmodify tl.events k f) k = some (f e0) := by
    rw [dlookup_dmodify_self, he0]
    rfl
  have l_other : ∀ q, q ≠ k →
      dlookup (dmodify tl.events k f) q = dlookup tl.events q :=
    fun q hq => dlookup_dmodify_ne _ _ _ _ (Ne.symm hq)
  refine ⟨?_, ?_, ?_, ?_, ?_⟩
  · show ((dmodify tl.events k f).map Prod.fst).Nodup
    rw [dmodify_keys]
    exact hwf.nodupKeys
  · intro id e q hle hq
    by_cases hid : id = k
    · rw [hid] at hle ⊢
      rw [l_k] at hle
      cases Option.some.inj hle
      have hq0 : e0.parent_event_id = some q := by rw [← hfp]; exact hq
      obtain ⟨qe, hqe, hqm⟩ := hwf.parentChild k e0 q he0 hq0
      by_cases hqk : q = k
      · rw [hqk] at hqe
        rw [he0] at hqe
        cases Option.some.inj hqe
        exact ⟨f e0, by rw [hqk]; exact l_k, by rw [hfc]; exact hqm⟩
      · exact ⟨qe, by rw [l_other q hqk]; exact hqe, hqm⟩
    · rw [l_other id hid] at hle
      obtain ⟨qe, hqe, hqm⟩ := hwf.parentChild id e q hle hq
      by_cases hqk : q = k
      · rw [hqk] at hqe
        rw [he0] at hqe
        cases Option.some.inj hqe
        exact ⟨f e0, by rw [hqk]; exact l_k, by rw [hfc]; exact hqm⟩
      · exact ⟨qe, by rw [l_other q hqk]; exact hqe, hqm⟩
  · intro id e c hle hc
    by_cases hid : id = k
    · rw [hid] at hle ⊢
      rw [l_k] at hle
      cases Option.some.inj hle
      rw [hfc] at hc
      obtain ⟨ce, hce, hcp⟩ := hwf.childParent k e0 c he0 hc
      by_cases hck : c = k
      · rw [hck] at hce
        rw [he0] at hce
        cases Option.some.inj hce
        exact ⟨f e0, by rw [hck]; exact l_k, by rw [hfp]; exact hcp⟩
      · exact ⟨ce, by rw [l_other c hck]; exact hce, hcp⟩
    · rw [l_other id hid] at hle
      obtain ⟨ce, hce, hcp⟩ := hwf.childParent id e c hle hc
      by_cases hck : c = k
      · rw [hck] at hce
        rw [he0] at hce
        cases Option.some.inj hce
        exact ⟨f e0, by rw [hck]; exact l_k, by rw [hfp]; exact hcp⟩
      · exact ⟨ce, by rw [l_other c hck]; exact hce, hcp⟩
  · intro hd hhd
    have hs := hwf.headOk hd hhd
    by_cases hdk : hd = k
    · rw [hdk, l_k]
      rfl
    · rw [l_other hd hdk]
      exact hs
  · intro id e hle
    by_cases hid : id = k
    · rw [hid] at hle ⊢
      rw [l_k] at hle
      cases Option.some.inj hle
      rw [hfp]
      exact hwf.noSelfParent k e0 he0
    · rw [l_other id hid] at hle
      exact hwf.noSelfParent id e hle

/-- Full characterization of the re-attachment loop: the branch event
collects the given children in order, each listed child is re-parented to
it, everything else is untouched, and the key list is unchanged. -/
theorem reparent_lookup (bid : EventId) (existing : List EventId) :
    ∀ (evs : List (EventId × StoryEvent)) (be : StoryEvent),
    dlookup evs bid = some be →
    (∀ C ∈ existing, (dlookup evs C).isSome = true) →
    bid ∉ existing →
    dlookup (reparentChildren bid evs existing) bid =
        some { be with child_event_ids := be.child_event_ids ++ existing } ∧
    (∀ C ∈ existing, ∃ ce, dlookup evs C = some ce ∧
        dlookup (reparentChildren bid evs existing) C =
          some { ce with parent_event_id := some bid }) ∧
    (∀ k, k ∉ existing → k ≠ bid →
        dlookup (reparentChildren bid evs existing) k = dlookup evs k) ∧
    (reparentChildren bid evs existing).map Prod.fst = evs.map Prod.fst := by
  induction existing with
  | nil =>
    intro evs be hbe _ _
    refine ⟨?_, ?_, fun k _ _ => by rw [reparentChildren_nil], rfl⟩
    · rw [reparentChildren_nil, hbe, List.append_nil]
    · intro C hC
      exact absurd hC (List.not_mem_nil C)
  | cons cid rest ih =>
    intro evs be hbe hex hnb
    have hcid_ne_bid : cid ≠ bid := fun h => hnb (h ▸ List.mem_cons_self cid rest)
    have hcidSome : (dlookup evs cid).isSome = true :=
      hex cid (List.mem_cons_self _ _)
    obtain ⟨ce0, hce0⟩ := Option.isSome_iff_exists.mp hcidSome
    set E' := dmodify
      (dmodify evs cid (fun ce => { ce with parent_event_id := some bid })) bid
      (fun b => { b with child_event_ids := b.child_event_ids ++ [cid] }) with hE'
    have l'_bid : dlookup E' bid =
        some { be with child_event_ids := be.child_event_ids ++ [cid] } := by
      rw [hE', dlookup_dmodify_self, dlookup_dmodify_ne _ _ _ _ hcid_ne_bid, hbe]
      rfl
    have l'_cid : dlookup E' cid =
        some { ce0 with parent_event_id := some bid } := by
      rw [hE', dlookup_dmodify_ne _ _ _ _ (Ne.symm hcid_ne_bid),
        dlookup_dmodify_self, hce0]
      rfl
    have l'_other : ∀ k, k ≠ cid → k ≠ bid → dlookup E' k = dlookup evs k := by
      intro k h1 h2
      rw [hE', dlookup_dmodify_ne _ _ _ _ (Ne.symm h2),
        dlookup_dmodify_ne _ _ _ _ (Ne.symm h1)]
    have hex' : ∀ C ∈ rest, (dlookup E' C).isSome = true := by
      intro C hC
      rw [hE', dlookup_dmodify_isSome, dlookup_dmodify_isSome]
      exact hex C (List.mem_cons_of_mem _ hC)
    have hnb' : bid ∉ rest := fun h => hnb (List.mem_cons_of_mem _ h)
    obtain ⟨ihbid, ihmem, ihother, ihkeys⟩ :=
      ih E' { be with child_event_ids := be.child_event_ids ++ [cid] } l'_bid
        hex' hnb'
    refine ⟨?_, ?_, ?_, ?_⟩
    · rw [reparentChildren_cons bid evs cid rest hcidSome, ← hE', ihbid,
        List.append_assoc]
      rfl
    · intro C hC
      by_cases hCc : C = cid
      · rw [hCc]
        by_cases hcidrest : cid ∈ rest
        · obtain ⟨ce', hce', hfin⟩ := ihmem cid hcidrest
          rw [l'_cid] at hce'
          cases Option.some.inj hce'
          refine ⟨ce0, hce0, ?_⟩
          rw [reparentChildren_cons bid evs cid rest hcidSome, ← hE']
          exact hfin
        · refine ⟨ce0, hce0, ?_⟩
          rw [reparentChildren_cons bid evs cid rest hcidSome, ← hE',
            ihother cid hcidrest hcid_ne_bid]
          exact l'_cid
      · have hCrest : C ∈ rest := by
          rcases List.mem_cons.mp hC with h | h
          · exact absurd h hCc
          · exact h
        have hCb : C ≠ bid := fun h => hnb (h ▸ hC)
        obtain ⟨ce', hce', hfin⟩ := ihmem C hCrest
        rw [l'_other C hCc hCb] at hce'
        refine ⟨ce', hce', ?_⟩
        rw [reparentChildren_cons bid evs cid rest hcidSome, ← hE']
        exact hfin
    · intro k hk hkb
      have hk1 : k ≠ cid := fun h => hk (h ▸ List.mem_cons_self _ _)
      have hk2 : k ∉ rest := fun h => hk (List.mem_cons_of_mem _ h)
      rw [reparentChildren_cons bid evs cid rest hcidSome, ← hE',
        ihother k hk2 hkb]
      exact l'_other k hk1 hkb
    · rw [reparentChildren_cons bid evs cid rest hcidSome, ← hE', ihkeys, hE',
        dmodify_keys, dmodify_keys]

/-- The composite first step of create_branch_point on an event with
children — flag and clear the branch point, add the first branch-option
event as its child, re-attach the saved children to that event — restores
the invariant (it is broken between the clear and the re-attachment). -/
theorem WF_branch_first (hash : EData → Int) {tl : StoryTimeline} (eid : EventId)
    (e0 : StoryEvent) (ts : Nat) (c : ChoiceInput)
    (he0 : dlookup tl.events eid = some e0)
    (hfresh : dlookup tl.events (branchId hash ts c) = none)
    (hwf : WF tl) :
    WF { tl with
        events := reparentChildren (branchId hash ts c)
          (dmodify (dmodify tl.events eid (fun ev =>
              { ev with
                is_branch_point := true,
                child_event_ids := [],
                branch_choices := [] }) ++
            [(branchId hash ts c,
              StoryEvent.init hash ts "branch_option"
                (EData.choiceData c.text c.content) (some eid) none)]) eid
            (fun x => { x with
              child_event_ids := x.child_event_ids ++ [branchId hash ts c] }))
          e0.child_event_ids,
        head_event_id := some (branchId hash ts c),
        dirty := true } := by
  set b := branchId hash ts c with hbdef
  set nB := StoryEvent.init hash ts "branch_option"
    (EData.choiceData c.text c.content) (some eid) none with hnB
  set E1 := dmodify tl.events eid (fun ev =>
    { ev with
      is_branch_point := true,
      child_event_ids := [],
      branch_choices := [] }) with hE1
  set E2 := E1 ++ [(b, nB)] with hE2
  set E3 := dmodify E2 eid (fun x =>
    { x with child_event_ids := x.child_event_ids ++ [b] }) with hE3
  set E5 := reparentChildren b E3 e0.child_event_ids with hE5
  have heid_ne_b : eid ≠ b := ne_of_lookup_isSome_none (by rw [he0]; rfl) hfresh
  have l1_b : dlookup E1 b = none := by
    rw [hE1, dlookup_eq_none_iff_not_mem_keys, dmodify_keys]
    exact (dlookup_eq_none_iff_not_mem_keys _ _).mp hfresh
  have l3_eid : dlookup E3 eid = some
      { e0 with
        is_branch_point := true,
        child_event_ids := [b],
        branch_choices := [] } := by
    rw [hE3, dlookup_dmodify_self, hE2,
      dlookup_append_single_ne (Ne.symm heid_ne_b), hE1, dlookup_dmodify_self,
      he0]
    rfl
  have l3_b : dlookup E3 b = some nB := by
    rw [hE3, dlookup_dmodify_ne _ _ _ _ heid_ne_b, hE2,
      dlookup_append_single_self _ l1_b]
  have l3_other : ∀ k, k ≠ eid → k ≠ b → dlookup E3 k = dlookup tl.events k := by
    intro k h1 h2
    rw [hE3, dlookup_dmodify_ne _ _ _ _ (Ne.symm h1), hE2,
      dlookup_append_single_ne (Ne.symm h2), hE1,
      dlookup_dmodify_ne _ _ _ _ (Ne.symm h1)]
  have hchild : ∀ C ∈ e0.child_event_ids, ∃ ce, dlookup tl.events C = some ce ∧
      ce.parent_event_id = some eid := fun C hC => hwf.childParent eid e0 C he0 hC
  have hchild_ne_eid : ∀ C ∈ e0.child_event_ids, C ≠ eid := by
    intro C hC hCeid
    obtain ⟨ce, hce, hcp⟩ := hchild C hC
    rw [hCeid] at hce
    rw [he0] at hce
    have hcc : ce = e0 := (Option.some.inj hce).symm
    rw [hcc] at hcp
    exact hwf.noSelfParent eid e0 he0 hcp
  have hchild_ne_b : ∀ C ∈ e0.child_event_ids, C ≠ b := by
    intro C hC
    obtain ⟨ce, hce, _⟩ := hchild C hC
    exact ne_of_lookup_isSome_none (by rw [hce]; rfl) hfresh
  have hex3 : ∀ C ∈ e0.child_event_ids, (dlookup E3 C).isSome = true := by
    intro C hC
    obtain ⟨ce, hce, _⟩ := hchild C hC
    rw [l3_other C (hchild_ne_eid C hC) (hchild_ne_b C hC), hce]
    rfl
  have hb_notin : b ∉ e0.child_event_ids := fun h => (hchild_ne_b b h) rfl
  obtain ⟨rbid, rmem, rother, rkeys⟩ :=
    reparent_lookup b e0.child_event_ids E3 nB l3_b hex3 hb_notin
  have l5_b : dlookup E5 b = some
      { nB with child_event_ids := e0.child_event_ids } := by
    rw [hE5]
    exact rbid
  have l5_eid : dlookup E5 eid = some
      { e0 with
        is_branch_point := true,
        child_event_ids := [b],
        branch_choices := [] } := by
    rw [hE5, rother eid (fun h => hchild_ne_eid eid h rfl) heid_ne_b]
    exact l3_eid
  have l5_mem : ∀ C ∈ e0.child_event_ids, ∃ ce,
      dlookup tl.events C = some ce ∧ ce.parent_event_id = some eid ∧
      dlookup E5 C = some { ce with parent_event_id := some b } := by
    intro C hC
    obtain ⟨ce', hce', hfin⟩ := rmem C hC
    obtain ⟨ce, hce, hcp⟩ := hchild C hC
    rw [l3_other C (hchild_ne_eid C hC) (hchild_ne_b C hC)] at hce'
    rw [hce] at hce'
    have hcc : ce' = ce := (Option.some.inj hce').symm
    rw [hcc] at hfin
    exact ⟨ce, hce, hcp, by rw [hE5]; exact hfin⟩
  have l5_other : ∀ k, k ∉ e0.child_event_ids → k ≠ b → k ≠ eid →
      dlookup E5 k = dlookup tl.events k := by
    intro k h1 h2 h3
    rw [hE5, rother k h1 h2]
    exact l3_other k h3 h2
  refine ⟨?_, ?_, ?_, ?_, ?_⟩
  · show (E5.map Prod.fst).Nodup
    rw [hE5, rkeys, hE3, dmodify_keys, hE2, List.map_append, hE1, dmodify_keys]
    refine List.Nodup.append hwf.nodupKeys (List.nodup_singleton _) ?_
    intro a ha hbm
    simp only [List.map_cons, List.map_nil, List.mem_singleton] at hbm
    subst hbm
    exact (dlookup_eq_none_iff_not_mem_keys _ _).mp hfresh ha
  · intro id e q hle hq
    by_cases hidb : id = b
    · rw [hidb] at hle ⊢
      rw [l5_b] at hle
      cases Option.some.inj hle
      have hq' : (some eid : Option EventId) = some q := hq
      cases Option.some.inj hq'
      exact ⟨{ e0 with
        is_branch_point := true,
        child_event_ids := [b],
        branch_choices := [] }, l5_eid, by simp⟩
    · by_cases hideid : id = eid
      · rw [hideid] at hle ⊢
        rw [l5_eid] at hle
        cases Option.some.inj hle
        have hq0 : e0.parent_event_id = some q := hq
        obtain ⟨qe, hqe, hqm⟩ := hwf.parentChild eid e0 q he0 hq0
        have hqeid : q ≠ eid := by
          intro h
          rw [h] at hq0
          exact hwf.noSelfParent eid e0 he0 hq0
        have hqb : q ≠ b := ne_of_lookup_isSome_none (by rw [hqe]; rfl) hfresh
        by_cases hqex : q ∈ e0.child_event_ids
        · obtain ⟨ce, hce, hcp, hfin⟩ := l5_mem q hqex
          rw [hce] at hqe
          have hqq : qe = ce := (Option.some.inj hqe).symm
          rw [hqq] at hqm
          exact ⟨{ ce with parent_event_id := some b }, hfin, hqm⟩
        · exact ⟨qe, by rw [l5_other q hqex hqb hqeid]; exact hqe, hqm⟩
      · by_cases hidex : id ∈ e0.child_event_ids
        · obtain ⟨ce, hce, hcp, hfin⟩ := l5_mem id hidex
          rw [hfin] at hle
          cases Option.some.inj hle
          have hq' : (some b : Option EventId) = some q := hq
          cases Option.some.inj hq'
          exact ⟨{ nB with child_event_ids := e0.child_event_ids }, l5_b, hidex⟩
        · rw [l5_other id hidex hidb hideid] at hle
          obtain ⟨qe, hqe, hqm⟩ := hwf.parentChild id e q hle hq
          have hqb : q ≠ b := ne_of_lookup_isSome_none (by rw [hqe]; rfl) hfresh
          by_cases hqeid : q = eid
          · rw [hqeid] at hqe
            rw [he0] at hqe
            have hqq : qe = e0 := (Option.some.inj hqe).symm
            rw [hqq] at hqm
            exact absurd hqm hidex
          · by_cases hqex : q ∈ e0.child_event_ids
            · obtain ⟨ce, hce, hcp, hfin⟩ := l5_mem q hqex
              rw [hce] at hqe
              have hqq : qe = ce := (Option.some.inj hqe).symm
              rw [hqq] at hqm
              exact ⟨{ ce with parent_event_id := some b }, hfin, hqm⟩
            · exact ⟨qe, by rw [l5_other q hqex hqb hqeid]; exact hqe, hqm⟩
  · intro id e cc hle hcc
    by_cases hidb : id = b
    · rw [hidb] at hle ⊢
      rw [l5_b] at hle
      cases Option.some.inj hle
      have hcc' : cc ∈ e0.child_event_ids := hcc
      obtain ⟨ce, hce, hcp, hfin⟩ := l5_mem cc hcc'
      exact ⟨{ ce with parent_event_id := some b }, hfin, rfl⟩
    · by_cases hideid : id = eid
      · rw [hideid] at hle ⊢
        rw [l5_eid] at hle
        cases Option.some.inj hle
        have hcc' : cc ∈ [b] := hcc
        have hccb : cc = b := by simpa using hcc'
        rw [hccb]
        exact ⟨{ nB with child_event_ids := e0.child_event_ids }, l5_b, rfl⟩
      · by_cases hidex : id ∈ e0.child_event_ids
        · obtain ⟨ce, hce, hcp, hfin⟩ := l5_mem id hidex
          rw [hfin] at hle
          cases Option.some.inj hle
          have hcc' : cc ∈ ce.child_event_ids := hcc
          obtain ⟨de, hde, hdp⟩ := hwf.childParent id ce cc hce hcc'
          have hccb : cc ≠ b := ne_of_lookup_isSome_none (by rw [hde]; rfl) hfresh
          by_cases hcceid : cc = eid
          · rw [hcceid] at hde ⊢
            rw [he0] at hde
            have hdd : de = e0 := (Option.some.inj hde).symm
            rw [hdd] at hdp
            exact ⟨{ e0 with
              is_branch_point := true,
              child_event_ids := [b],
              branch_choices := [] }, l5_eid, hdp⟩
          · by_cases hccex : cc ∈ e0.child_event_ids
            · obtain ⟨ce2, hce2, hcp2⟩ := hchild cc hccex
              rw [hce2] at hde
              have hdd : de = ce2 := (Option.some.inj hde).symm
              rw [hdd] at hdp
              rw [hcp2] at hdp
              exact absurd (Option.some.inj hdp).symm hideid
            · exact ⟨de, by rw [l5_other cc hccex hccb hcceid]; exact hde, hdp⟩
        · rw [l5_other id hidex hidb hideid] at hle
          obtain ⟨de, hde, hdp⟩ := hwf.childParent id e cc hle hcc
          have hccb : cc ≠ b := ne_of_lookup_isSome_none (by rw [hde]; rfl) hfresh
          by_cases hcceid : cc = eid
          · rw [hcceid] at hde ⊢
            rw [he0] at hde
            have hdd : de = e0 := (Option.some.inj hde).symm
            rw [hdd] at hdp
            exact ⟨{ e0 with
              is_branch_point := true,
              child_event_ids := [b],
              branch_choices := [] }, l5_eid, hdp⟩
          · by_cases hccex : cc ∈ e0.child_event_ids
            · obtain ⟨ce2, hce2, hcp2⟩ := hchild cc hccex
              rw [hce2] at hde
              have hdd : de = ce2 := (Option.some.inj hde).symm
              rw [hdd] at hdp
              rw [hcp2] at hdp
              exact absurd (Option.some.inj hdp).symm hideid
            · exact ⟨de, by rw [l5_other cc hccex hccb hcceid]; exact hde, hdp⟩
  · intro hd hhd
    cases Option.some.inj hhd
    rw [l5_b]
    rfl
  · intro id e hle
    by_cases hidb : id = b
    · rw [hidb] at hle ⊢
      rw [l5_b] at hle
      cases Option.some.inj hle
      intro hcon
      exact heid_ne_b (Option.some.inj hcon)
    · by_cases hideid : id = eid
      · rw [hideid] at hle ⊢
        rw [l5_eid] at hle
        cases Option.some.inj hle
        exact hwf.noSelfParent eid e0 he0
      · by_cases hidex : id ∈ e0.child_event_ids
        · obtain ⟨ce, hce, hcp, hfin⟩ := l5_mem id hidex
          rw [hfin] at hle
          cases Option.some.inj hle
          intro hcon
          exact hidb (Option.some.inj hcon).symm
        · rw [l5_other id hidex hidb hideid] at hle
          exact hwf.noSelfParent id e hle

theorem dlookup_dmodify_none {α β : Type} [DecidableEq α] {m : List (α × β)}
    {k k' : α} {f : β → β} (h : dlookup m k' = none) :
    dlookup (dmodify m k f) k' = none := by
  rw [dlookup_eq_none_iff_not_mem_keys, dmodify_keys,
    ← dlookup_eq_none_iff_not_mem_keys]
  exact h

theorem reparentChildren_cons_skip (bid : EventId)
    (evs : List (EventId × StoryEvent)) (cid : EventId) (rest : List EventId)
    (h : ¬((dlookup evs cid).isSome = true)) :
    reparentChildren bid evs (cid :: rest) = reparentChildren bid evs rest := by
  simp only [reparentChildren]
  rw [if_neg h]

theorem reparentChildren_keys (bid : EventId) (existing : List EventId) :
    ∀ evs : List (EventId × StoryEvent),
    (reparentChildren bid evs existing).map Prod.fst = evs.map Prod.fst := by
  induction existing with
  | nil => intro evs; rfl
  | cons cid rest ih =>
    intro evs
    by_cases h : (dlookup evs cid).isSome = true
    · rw [reparentChildren_cons bid evs cid rest h, ih, dmodify_keys, dmodify_keys]
    · rw [reparentChildren_cons_skip bid evs cid rest h, ih]

theorem reparentChildren_keeps_isSome (bid : EventId) (existing : List EventId)
    (evs : List (EventId × StoryEvent)) (k : EventId)
    (h : (dlookup evs k).isSome = true) :
    (dlookup (reparentChildren bid evs existing) k).isSome = true := by
  rw [dlookup_isSome_iff_mem_keys] at h ⊢
  rw [reparentChildren_keys]
  exact h

theorem reparentChildren_keeps_none (bid : EventId) (existing : List EventId)
    (evs : List (EventId × StoryEvent)) (k : EventId)
    (h : dlookup evs k = none) :
    dlookup (reparentChildren bid evs existing) k = none := by
  rw [dlookup_eq_none_iff_not_mem_keys] at h ⊢
  rw [reparentChildren_keys]
  exact h

theorem add_event_keeps_isSome (hash : EData → Int) (tl : StoryTimeline) (ts : Nat)
    (etype : String) (d : EData) (pid : EventId) (oref : Option String) (k : EventId)
    (hpe : (dlookup tl.events pid).isSome = true)
    (hfresh : dlookup tl.events (genId hash ts etype d) = none)
    (hk : (dlookup tl.events k).isSome = true) :
    (dlookup (add_event hash tl ts etype d (some pid) oref).1.events k).isSome =
      true := by
  rw [add_event_some_parent hash tl ts etype d pid oref hpe hfresh]
  show (dlookup (dmodify (tl.events ++ [(genId hash ts etype d,
      StoryEvent.init hash ts etype d (some pid) oref)]) pid
      (fun x => { x with child_event_ids :=
        x.child_event_ids ++ [genId hash ts etype d] })) k).isSome = true
  rw [dlookup_dmodify_isSome]
  exact dlookup_append_isSome _ hk

theorem add_event_keeps_none (hash : EData → Int) (tl : StoryTimeline) (ts : Nat)
    (etype : String) (d : EData) (pid : EventId) (oref : Option String) (k : EventId)
    (hpe : (dlookup tl.events pid).isSome = true)
    (hfresh : dlookup tl.events (genId hash ts etype d) = none)
    (hk : dlookup tl.events k = none) (hkn : k ≠ genId hash ts etype d) :
    dlookup (add_event hash tl ts etype d (some pid) oref).1.events k = none := by
  rw [add_event_some_parent hash tl ts etype d pid oref hpe hfresh]
  show dlookup (dmodify (tl.events ++ [(genId hash ts etype d,
      StoryEvent.init hash ts etype d (some pid) oref)]) pid
      (fun x => { x with child_event_ids :=
        x.child_event_ids ++ [genId hash ts etype d] })) k = none
  rw [dlookup_dmodify_ne _ _ _ _ (ne_of_lookup_isSome_none hpe hk),
    dlookup_append_single_ne (fun h => hkn h.symm)]
  exact hk

/-- One step of the branch-creation loop on any iteration where the
re-attachment is skipped. -/
theorem cbpLoop_cons_skip (hash : EData → Int) (eid : EventId)
    (existing : List EventId) (tl : StoryTimeline) (c : ChoiceInput) (ts : Nat)
    (rest : List (ChoiceInput × Nat)) (acc : List EventId) (tlA : StoryTimeline)
    (bid : EventId)
    (hadd : add_event hash tl ts "branch_option"
      (EData.choiceData c.text c.content) (some eid) none = (tlA, bid))
    (hskip : ¬(existing ≠ [] ∧ acc = [])) :
    cbpLoop hash eid existing tl ((c, ts) :: rest) acc =
      cbpLoop hash eid existing
        { tlA with
          events := dmodify tlA.events eid
            (fun e => { e with branch_choices := e.branch_choices ++ [⟨c.text, bid⟩] }) }
        rest (acc ++ [bid]) := by
  simp only [cbpLoop, hadd]
  rw [if_neg hskip]

/-- The ids the loop generates for a list of choice/timestamp pairs. -/
def pairGenIds (hash : EData → Int) (l : List (ChoiceInput × Nat)) : List EventId :=
  l.map (fun ct => branchId hash ct.2 ct.1)

/-- The ids create_branch_point generates for its choices and timestamps. -/
def branch_gen_ids (hash : EData → Int) (choices : List ChoiceInput)
    (tss : List Nat) : List EventId :=
  pairGenIds hash (choices.zip tss)

theorem pairGenIds_cons (hash : EData → Int) (c : ChoiceInput) (ts : Nat)
    (rest : List (ChoiceInput × Nat)) :
    pairGenIds hash ((c, ts) :: rest) =
      branchId hash ts c :: pairGenIds hash rest := rfl

theorem branch_gen_ids_eq (hash : EData → Int) (choices : List ChoiceInput)
    (tss : List Nat) :
    branch_gen_ids hash choices tss = pairGenIds hash (choices.zip tss) := rfl

/-- Iterations of the branch-creation loop that perform no re-attachment
(empty saved children, or not the first iteration) preserve the invariant,
as long as every id still to be generated is fresh. -/
theorem WF_cbpLoop (hash : EData → Int) (eid : EventId) (existing : List EventId)
    (l : List (ChoiceInput × Nat)) :
    ∀ (tl : StoryTimeline) (acc : List EventId),
    WF tl →
    (dlookup tl.events eid).isSome = true →
    (existing = [] ∨ acc ≠ []) →
    (pairGenIds hash l).Nodup →
    (∀ b ∈ pairGenIds hash l, dlookup tl.events b = none) →
    WF (cbpLoop hash eid existing tl l acc).1 := by
  induction l with
  | nil =>
    intro tl acc hwf _ _ _ _
    rw [cbpLoop_nil]
    exact hwf
  | cons ct rest ih =>
    obtain ⟨c, ts⟩ := ct
    intro tl acc hwf heid hga hnd hfr
    rw [pairGenIds_cons] at hnd hfr
    have hb : dlookup tl.events (branchId hash ts c) = none :=
      hfr _ (List.mem_cons_self _ _)
    have hskip : ¬(existing ≠ [] ∧ acc = []) := by
      rcases hga with h | h
      · exact fun hcon => hcon.1 h
      · exact fun hcon => h hcon.2
    rw [cbpLoop_cons_skip hash eid existing tl c ts rest acc _ _ rfl hskip]
    have hwfA : WF (add_event hash tl ts "branch_option"
        (EData.choiceData c.text c.content) (some eid) none).1 :=
      WF_add hash ts "branch_option" _ (some eid) none hwf heid hb
    have heidA : (dlookup (add_event hash tl ts "branch_option"
        (EData.choiceData c.text c.content) (some eid)
        none).1.events eid).isSome = true :=
      add_event_keeps_isSome hash tl ts "branch_option" _ eid none eid heid hb heid
    obtain ⟨eA, heA⟩ := Option.isSome_iff_exists.mp heidA
    apply ih
    · exact WF_events_modify_at eid _ eA heA rfl rfl hwfA
    · show (dlookup (dmodify (add_event hash tl ts "branch_option"
        (EData.choiceData c.text c.content) (some eid) none).1.events eid
        (fun e => { e with branch_choices := e.branch_choices ++
          [⟨c.text, (add_event hash tl ts "branch_option"
            (EData.choiceData c.text c.content) (some eid) none).2⟩] }))
        eid).isSome = true
      rw [dlookup_dmodify_isSome]
      exact heidA
    · rcases hga with h | h
      · exact Or.inl h
      · exact Or.inr (by simp)
    · exact List.Nodup.of_cons hnd
    · intro b' hb'
      have hne : b' ≠ branchId hash ts c := by
        intro h
        rw [List.nodup_cons] at hnd
        exact hnd.1 (h ▸ hb')
      have hnone : dlookup tl.events b' = none :=
        hfr b' (List.mem_cons_of_mem _ hb')
      show dlookup (dmodify (add_event hash tl ts "branch_option"
        (EData.choiceData c.text c.content) (some eid) none).1.events eid
        (fun e => { e with branch_choices := e.branch_choices ++
          [⟨c.text, (add_event hash tl ts "branch_option"
            (EData.choiceData c.text c.content) (some eid) none).2⟩] })) b' = none
      apply dlookup_dmodify_none
      exact add_event_keeps_none hash tl ts "branch_option" _ eid none b' heid hb
        hnone hne

/-- create_branch_point with at least one effective option and fresh,
pairwise-distinct generated ids preserves the invariant. -/
theorem WF_create_branch_point (hash : EData → Int) {tl : StoryTimeline}
    (eid : EventId) (choices : List ChoiceInput) (tss : List Nat) (hwf : WF tl)
    (hnz : choices.zip tss ≠ [])
    (hnd : (branch_gen_ids hash choices tss).Nodup)
    (hfr : ∀ b ∈ branch_gen_ids hash choices tss, dlookup tl.events b = none) :
    WF (create_branch_point hash tl eid choices tss).1 := by
  rw [branch_gen_ids_eq] at hnd hfr
  cases he : dlookup tl.events eid with
  | none =>
    have hstep : create_branch_point hash tl eid choices tss = (tl, false, []) := by
      unfold create_branch_point
      rw [he]
    rw [hstep]
    exact hwf
  | some e0 =>
    have hstep : create_branch_point hash tl eid choices tss =
        ({ (cbpLoop hash eid e0.child_event_ids
            { tl with events := dmodify tl.events eid (fun ev =>
              { ev with
                is_branch_point := true,
                child_event_ids := [],
                branch_choices := [] }) }
            (choices.zip tss) []).1 with dirty := true }, true,
         (cbpLoop hash eid e0.child_event_ids
            { tl with events := dmodify tl.events eid (fun ev =>
              { ev with
                is_branch_point := true,
                child_event_ids := [],
                branch_choices := [] }) }
            (choices.zip tss) []).2) := by
      unfold create_branch_point
      rw [he]
    rw [hstep]
    apply WF_set_dirty
    have heid1 : (dlookup (dmodify tl.events eid (fun ev =>
        { ev with
          is_branch_point := true,
          child_event_ids := [],
          branch_choices := [] })) eid).isSome = true := by
      rw [dlookup_dmodify_isSome, he]
      rfl
    cases hz : choices.zip tss with
    | nil => exact absurd hz hnz
    | cons ct rest =>
      obtain ⟨c, ts⟩ := ct
      rw [hz] at hnd hfr
      rw [pairGenIds_cons] at hnd hfr
      have hb : dlookup tl.events (branchId hash ts c) = none :=
        hfr _ (List.mem_cons_self _ _)
      have hb1 : dlookup (dmodify tl.events eid (fun ev =>
          { ev with
            is_branch_point := true,
            child_event_ids := [],
            branch_choices := [] })) (branchId hash ts c) = none :=
        dlookup_dmodify_none hb
      by_cases hex : e0.child_event_ids = []
      · -- the branch point had no children: the flag-and-clear step keeps
        -- the invariant and every loop iteration skips re-attachment
        have hwf1 : WF { tl with events := dmodify tl.events eid (fun ev =>
            { ev with
              is_branch_point := true,
              child_event_ids := [],
              branch_choices := [] }) } :=
          WF_events_modify_at eid _ e0 he rfl (by rw [hex]) hwf
        exact WF_cbpLoop hash eid e0.child_event_ids ((c, ts) :: rest) _ []
          hwf1 heid1 (Or.inl hex) hnd
          (fun b hbm => dlookup_dmodify_none (hfr b hbm))
      · -- the branch point had children: the composite first iteration
        -- restores the invariant, the remaining iterations preserve it
        have hadd := add_event_some_parent hash
          { tl with events := dmodify tl.events eid (fun ev =>
            { ev with
              is_branch_point := true,
              child_event_ids := [],
              branch_choices := [] }) }
          ts "branch_option" (EData.choiceData c.text c.content) eid none heid1 hb1
        rw [cbpLoop_cons_first hash eid e0.child_event_ids _ c ts rest _ _ hadd hex]
        have hwf5 := WF_branch_first hash eid e0 ts c he hb hwf
        have h5eid : (dlookup (reparentChildren (branchId hash ts c)
            (dmodify (dmodify tl.events eid (fun ev =>
                { ev with
                  is_branch_point := true,
                  child_event_ids := [],
                  branch_choices := [] }) ++
              [(branchId hash ts c,
                StoryEvent.init hash ts "branch_option"
                  (EData.choiceData c.text c.content) (some eid) none)]) eid
              (fun x => { x with
                child_event_ids := x.child_event_ids ++ [branchId hash ts c] }))
            e0.child_event_ids) eid).isSome = true := by
          apply reparentChildren_keeps_isSome
          rw [dlookup_dmodify_isSome]
          apply dlookup_append_isSome
          exact heid1
        obtain ⟨e5, he5⟩ := Option.isSome_iff_exists.mp h5eid
        apply WF_cbpLoop hash eid e0.child_event_ids rest _ [branchId hash ts c]
        · exact WF_events_modify_at eid _ e5 he5 rfl rfl hwf5
        · dsimp only
          rw [dlookup_dmodify_isSome]
          exact h5eid
        · exact Or.inr (by simp)
        · exact List.Nodup.of_cons hnd
        · intro b' hb'
          have hne : b' ≠ branchId hash ts c := by
            intro h
            rw [List.nodup_cons] at hnd
            exact hnd.1 (h ▸ hb')
          have hnone : dlookup tl.events b' = none :=
            hfr b' (List.mem_cons_of_mem _ hb')
          have hne' : genId hash ts "branch_option"
              (EData.choiceData c.text c.content) ≠ b' := fun h => hne h.symm
          dsimp only
          apply dlookup_dmodify_none
          apply reparentChildren_keeps_none
          apply dlookup_dmodify_none
          rw [dlookup_append_single_ne hne']
          exact dlookup_dmodify_none hnone

theorem WF_select_branch {tl : StoryTimeline} (bid : EventId) (hwf : WF tl) :
    WF (select_branch tl bid).1 := by
  unfold select_branch
  by_cases h : (dlookup tl.events bid).isSome = true
  · rw [if_pos h]
    exact ⟨hwf.nodupKeys, hwf.parentChild, hwf.childParent,
      fun hd hhd => by cases Option.some.inj hhd; exact h, hwf.noSelfParent⟩
  · rw [if_neg h]
    exact hwf

theorem WF_add_asset {tl : StoryTimeline} (c a : String) (m : AData) (hwf : WF tl) :
    WF (add_asset tl c a m).1 := by
  unfold add_asset
  by_cases h : (dlookup tl.assets c).isSome = true
  · rw [if_pos h]
    exact WF.congr hwf rfl rfl
  · rw [if_neg h]
    exact hwf

theorem WF_remove_asset {tl : StoryTimeline} (c a : String) (hwf : WF tl) :
    WF (remove_asset tl c a).1 := by
  unfold remove_asset
  cases hb : dlookup tl.assets c with
  | none => exact hwf
  | some bucket =>
    dsimp only
    by_cases h : (dlookup bucket a).isSome = true
    · rw [if_pos h]
      exact WF.congr hwf rfl rfl
    · rw [if_neg h]
      exact hwf

/-- States reachable by the undo-free mutation API under the freshness
assumptions the code itself relies on: add_event with an existing or
defaulted parent and a fresh generated id; create_branch_point with at
least one effective option and fresh, pairwise-distinct generated ids;
select_branch and the asset operations unrestricted. -/
inductive ReachAmended (hash : EData → Int) : StoryTimeline → Prop where
  | start : ReachAmended hash StoryTimeline.init
  | add_ev (tl : StoryTimeline) (ts : Nat) (etype : String) (d : EData)
      (p? : Option EventId) (oref : Option String) (h : ReachAmended hash tl)
      (hp : parentOk tl p?)
      (hf : dlookup tl.events (genId hash ts etype d) = none) :
      ReachAmended hash (add_event hash tl ts etype d p? oref).1
  | branch (tl : StoryTimeline) (eid : EventId) (choices : List ChoiceInput)
      (tss : List Nat) (h : ReachAmended hash tl)
      (hnz : choices.zip tss ≠ [])
      (hnd : (branch_gen_ids hash choices tss).Nodup)
      (hfr : ∀ b ∈ branch_gen_ids hash choices tss, dlookup tl.events b = none) :
      ReachAmended hash (create_branch_point hash tl eid choices tss).1
  | selectB (tl : StoryTimeline) (bid : EventId) (h : ReachAmended hash tl) :
      ReachAmended hash (select_branch tl bid).1
  | addA (tl : StoryTimeline) (c a : String) (m : AData) (h : ReachAmended hash tl) :
      ReachAmended hash (add_asset tl c a m).1
  | removeA (tl : StoryTimeline) (c a : String) (h : ReachAmended hash tl) :
      ReachAmended hash (remove_asset tl c a).1

theorem WF_of_reachAmended (hash : EData → Int) (tl : StoryTimeline)
    (h : ReachAmended hash tl) : WF tl := by
  induction h with
  | start => exact WF_init
  | add_ev tl ts etype d p? oref h hp hf ih => exact WF_add hash ts etype d p? oref ih hp hf
  | branch tl eid choices tss h hnz hnd hfr ih =>
    exact WF_create_branch_point hash eid choices tss ih hnz hnd hfr
  | selectB tl bid h ih => exact WF_select_branch bid ih
  | addA tl c a m h ih => exact WF_add_asset c a m ih
  | removeA tl c a h ih => exact WF_remove_asset c a ih

/-- C2 amended: for every state reachable from the empty timeline by the
public mutation API without undo_generation — add_event with an existing
or defaulted parent, create_branch_point with at least one option,
select_branch, and the asset operations — and with every generated event
id fresh and the ids of one branch-creation call pairwise distinct (the
uniqueness the code assumes, cf. C3), bidirectional parent/child
consistency holds: every event whose parent_id is some p has p present in
events with the event listed among p's children. -/
theorem C2_bidirectional_amended (hash : EData → Int) (tl : StoryTimeline)
    (h : ReachAmended hash tl) : Bidir tl := by
  have hwf := WF_of_reachAmended hash tl h
  intro pr hmem p hp
  obtain ⟨id, e⟩ := pr
  exact hwf.parentChild id e p (dlookup_eq_some_of_mem hwf.nodupKeys hmem) hp

theorem C2_bidirectional_amended_witness : Bidir bpC2.1 :=
  C2_bidirectional_amended hash0 bpC2.1
    (ReachAmended.add_ev bpC1.1 3 "text_node" (.text "C2") (some bpA.2) none
      (ReachAmended.add_ev bpA.1 2 "text_node" (.text "C1") (some bpA.2) none
        (ReachAmended.add_ev StoryTimeline.init 1 "text_node" (.text "A") none none
          ReachAmended.start trivial (by decide))
        (by decide : (dlookup bpA.1.events bpA.2).isSome = true) (by decide))
      (by decide : (dlookup bpC1.1.events bpA.2).isSome = true) (by decide))

end VNova
